import Mathlib

/-!
Verification development for the kordesii string-decoding engine
(`kordesii/utils/decoderutils.py`).  The Python module is shallowly embedded:
Python values that flow through the duck-typed data fields are modelled by
`PyVal`, byte strings by `List Nat` (one entry per byte, `0` is the null
byte), unicode strings by `List Nat` (one entry per code point), and the
external IDA / yara / codec capabilities by explicit function parameters.
Loops are translated to structurally recursive functions; where the Python
loop's termination is data dependent, an explicit fuel argument is threaded
with callers supplying a bound that dominates the real iteration count.
-/

namespace Kordesii

/-- Python value for the duck-typed data fields of an `EncodedString`
(`encoded_data`, `decoded_data`, `size`, ...).  The module uses the sentinels
`INVALID = -1` (an int) and `UNUSED = None`; data fields may also hold a byte
string (Python 2 `str`) or a text string (Python 2 `unicode`). -/
inductive PyVal where
  | unused : PyVal
  | int : Int → PyVal
  | bytes : List Nat → PyVal
  | text : List Nat → PyVal
deriving DecidableEq

/-- `INVALID = -1` from decoderutils.py. -/
def INVALID : PyVal := PyVal.int (-1)

/-- `idc.BADADDR` of the external IDA context (64-bit sentinel). -/
def BADADDR : Int := 18446744073709551615

/-- Python truthiness of a `PyVal` (`if value:`): `None` is falsy, an int is
truthy iff nonzero (so `INVALID = -1` is truthy), a byte or text string is
truthy iff non-empty. -/
def PyVal.truthy : PyVal → Bool
  | .unused => false
  | .int n => n ≠ 0
  | .bytes b => b ≠ []
  | .text t => t ≠ []

/-- Integer content of a `PyVal`; only applied to fields that the source
stores ints in (addresses and sizes). -/
def PyVal.toInt : PyVal → Int
  | .int n => n
  | _ => 0

/-- Byte/text content of a `PyVal`; only applied to fields holding string
data (the splitter runs on `decoded_data` after the decode pipeline). -/
def PyVal.toData : PyVal → List Nat
  | .bytes b => b
  | .text t => t
  | _ => []

/-- The entity model: class `EncodedString` of decoderutils.py.  Field names
follow the source (`string_location`, `string_reference`, `size`, `offset`,
`key`, `encoded_data`, `decoded_data`, `code_page`). -/
structure EncodedString where
  string_location : PyVal
  string_reference : PyVal
  size : PyVal
  offset : PyVal
  key : PyVal
  encoded_data : PyVal
  decoded_data : PyVal
  code_page : Option String
deriving DecidableEq

/-- `EncodedString._compare_key`: sort/equality key
`(string_location, string_reference, decoded_data)`. -/
def EncodedString.compare_key (s : EncodedString) : PyVal × PyVal × PyVal :=
  (s.string_location, s.string_reference, s.decoded_data)

/-- Property `EncodedString.startEA`: `INVALID` when the location is unset or
`BADADDR`, otherwise `string_location` plus the offset when that is set. -/
def EncodedString.startEA (s : EncodedString) : Int :=
  if s.string_location = INVALID ∨ s.string_location = PyVal.unused ∨
      s.string_location = PyVal.int BADADDR then
    -1
  else
    s.string_location.toInt +
      (if s.offset ≠ INVALID ∧ s.offset ≠ PyVal.unused then s.offset.toInt else 0)

/-- External memory-read capability `idaapi.get_many_bytes(ea, size)`;
`none` models IDA returning `None` for an unreadable range. -/
def Mem : Type := Int → Int → Option (List Nat)

/-- Python exception kinds raised by the embedded code paths. -/
inductive PyErr where
  | runtimeError : PyErr
  | attributeError : PyErr
  | valueError : PyErr
deriving DecidableEq

/-- `EncodedString.get_bytes`: raises `ValueError` when `size == INVALID`,
otherwise reads `size` bytes at `string_location` when `size` is truthy (an
empty string when it is not), and yields `INVALID` when the read fails. -/
def EncodedString.get_bytes (mem : Mem) (s : EncodedString) : Except PyErr PyVal :=
  if s.size = INVALID then
    .error .valueError
  else
    let bytes : Option (List Nat) :=
      if s.size.truthy then mem s.string_location.toInt s.size.toInt else some []
    match bytes with
    | some b => .ok (PyVal.bytes b)
    | none => .ok INVALID

/-- `EncodedString.__init__`: populates `encoded_data` via `get_bytes` exactly
when `size not in (INVALID, UNUSED)`, else leaves it `INVALID`; `decoded_data`
starts `INVALID` and `code_page` starts `None`. -/
def EncodedString.init (mem : Mem) (string_location string_reference size offset key : PyVal) :
    Except PyErr EncodedString :=
  let s0 : EncodedString :=
    { string_location := string_location, string_reference := string_reference,
      size := size, offset := offset, key := key,
      encoded_data := INVALID, decoded_data := INVALID, code_page := none }
  if size ≠ INVALID ∧ size ≠ PyVal.unused then
    (s0.get_bytes mem).map (fun b => { s0 with encoded_data := b })
  else
    .ok s0

/-! ## The string splitter (`split_decoded_string`) -/

/-- Index of the first occurrence of two adjacent null bytes
(Python `data.find(chr(0) ++ chr(0))`, with `none` for `-1`). -/
def findDoubleNull : List Nat → Option Nat
  | 0 :: 0 :: _ => some 0
  | _ :: rest => (findDoubleNull rest).map (· + 1)
  | [] => none

/-- Index of the last null byte in a list (`none` when there is none). -/
def lastNullIdx : List Nat → Option Nat
  | [] => none
  | b :: rest =>
    match lastNullIdx rest with
    | some i => some (i + 1)
    | none => if b = 0 then some 0 else none

/-- Python `data[lo:hi].rfind(chr(0))` converted to an absolute index. -/
def rfindNull (data : List Nat) (lo hi : Nat) : Option Nat :=
  (lastNullIdx ((data.take hi).drop lo)).map (· + lo)

/-- The backward two-byte stepping loop of `split_decoded_string`:
`while string_start >= section_start and data[string_start] == chr(0):
string_start -= 2`.  Python ints can go below `section_start`, hence `Int`.
Fuel dominates the iteration count (callers pass `start + 2`). -/
def stepBack (data : List Nat) (sstart : Nat) : Nat → Int → Int
  | 0, p => p
  | fuel + 1, p =>
    if p ≥ (sstart : Int) ∧ data.getD p.toNat 1 = 0 then
      stepBack data sstart fuel (p - 2)
    else p

/-- One `string_start` computation of the inner splitting loop: the rightmost
null in `data[sstart:send]` is located, the stepping loop walks back over a
potential wide-character null run, and the result is adjusted exactly as the
source does (`+= 3` after overshooting, clamped to `section_start`). -/
def computeStringStart (data : List Nat) (sstart send : Nat) : Nat :=
  match rfindNull data sstart send with
  | none => sstart
  | some r =>
    let t := stepBack data sstart (r + 2) (r : Int)
    if t > (sstart : Int) then (t + 3).toNat else sstart

/-- The inner `while True` loop of `split_decoded_string`: carves successive
strings right-to-left inside one section.  Produces the list of
`(new_decoded_data, string_start)` pairs in append order.  `string_end`
strictly decreases, so fuel `send + 1` always suffices. -/
def innerLoop (data : List Nat) (sstart : Nat) : Nat → Nat → List (List Nat × Nat)
  | 0, _ => []
  | fuel + 1, send =>
    let st := computeStringStart data sstart send
    let carved := (data.take send).drop st
    let acc : List (List Nat × Nat) := if carved = [] then [] else [(carved ++ [0], st)]
    if st = sstart then acc
    else acc ++ innerLoop data sstart fuel (st - 1)

/-- The null-padding skip between sections:
`while section_start < size and data[section_start] == chr(0): += 1`. -/
def skipNulls (data : List Nat) (size : Nat) : Nat → Nat → Nat
  | 0, i => i
  | fuel + 1, i =>
    if i < size ∧ data.getD i 1 = 0 then skipNulls data size fuel (i + 1) else i

/-- The outer `while True` loop of `split_decoded_string`: processes one
double-null-delimited section with `innerLoop`, then advances past the
section break.  `section_start` grows by at least two per iteration, so fuel
`size + 2` always suffices. -/
def outerLoop (data : List Nat) (size : Nat) : Nat → Nat → Nat → List (List Nat × Nat)
  | 0, _, _ => []
  | fuel + 1, sstart, send =>
    let acc := innerLoop data sstart (send + 1) send
    if send = size then acc
    else
      let s1 := skipNulls data size (size + 1) (send + 2)
      let e1 :=
        match findDoubleNull (data.drop s1) with
        | some i => i + s1
        | none => size
      acc ++ outerLoop data size fuel s1 e1

/-- `split_decoded_string` reduced to its data content: from the decoded
buffer and the entity's recorded size, the list of
`(new_decoded_data, string_start)` carvings in append order. -/
def splitCore (data : List Nat) (size : Nat) : List (List Nat × Nat) :=
  let send :=
    match findDoubleNull data with
    | some i => i
    | none => size
  outerLoop data size (size + 2) 0 send

/-- Stable insertion of `a` into a list sorted ascending by the strict
comparison `lt`: `a` is placed before the first element not strictly below
it, so elements with equal keys keep their original relative order. -/
def insertAsc (lt : α → α → Bool) (a : α) : List α → List α
  | [] => [a]
  | b :: bs => if lt b a then b :: insertAsc lt a bs else a :: b :: bs

/-- Stable ascending sort by the strict comparison `lt`; models Python's
stable `list.sort(key=...)`. -/
def stableSortBy (lt : α → α → Bool) (l : List α) : List α :=
  l.foldr (insertAsc lt) []

/-- The size field as the `Nat` buffer length the splitter works with (the
splitter is only invoked on entities whose `size` is a non-negative int). -/
def EncodedString.sizeNat (s : EncodedString) : Nat :=
  s.size.toInt.toNat

/-- The result entities of `split_decoded_string` before sorting: one
shallow copy of the input per carving, with `decoded_data`, `size` and
`offset` overwritten. -/
def splitNewObjs (s : EncodedString) : List EncodedString :=
  (splitCore s.decoded_data.toData s.sizeNat).map fun p =>
    { s with
      decoded_data := PyVal.bytes p.1
      size := PyVal.int (p.1.length : Int)
      offset := PyVal.int (p.2 : Int) }

/-- `split_decoded_string(decoded_string)`: tokenizes one decoded buffer into
separate entities.  Every carving is shallow-copied from the input with
`decoded_data`, `size` and `offset` overwritten, and the results are sorted
by `startEA` (stable ascending, as `list.sort` is). -/
def split_decoded_string (s : EncodedString) : List EncodedString :=
  stableSortBy (fun a b => a.startEA < b.startEA) (splitNewObjs s)

/-- Heap-level rendering of `split_decoded_string` used to state the frame
property: the object store is a list, `copy.copy` allocates a fresh object at
the end of the store, and the function returns the new store plus the indices
of the result objects in sorted order.  The input object is only read. -/
def split_decoded_string_heap (store : List EncodedString) (idx : Nat) :
    List EncodedString × List Nat :=
  match store[idx]? with
  | none => (store, [])
  | some s =>
    let newObjs := splitNewObjs s
    let pairs := ((List.range newObjs.length).map (· + store.length)).zip newObjs
    let sortedPairs := stableSortBy (fun a b => a.2.startEA < b.2.startEA) pairs
    (store ++ newObjs, sortedPairs.map (·.1))

/-! ## The charset detector (`decode_unknown_charset`) -/

/-- `CODE_PAGES` from decoderutils.py: the fixed priority-ordered candidate
codec list of the charset detector. -/
def CODE_PAGES : List String :=
  ["ascii",
   "utf-32-be", "utf-32-le", "utf-16-be", "utf-16-le", "utf-8",
   "gb18030", "gbk",
   "gb2312", "hz",
   "big5hkscs", "big5",
   "koi8-r", "iso8859-5", "cp1251", "mac-cyrillic",
   "cp949",
   "iso8859-6", "cp1256",
   "latin1"]

/-- The wide codecs that get the trailing-null trimming retry in
`decode_unknown_charset`. -/
def wideCodecs : List String := ["utf-16-le", "utf-16-be", "utf-32-le", "utf-32-be"]

/-- External codec capability: Python's `bytes.decode(codec)`, mapping a codec
name and a byte string to a text string (code points), `none` modelling a
`UnicodeDecodeError`. -/
def Codec : Type := String → List Nat → Option (List Nat)

/-- ASCII code of a lower-case hex digit. -/
def hexDigit (n : Nat) : Nat :=
  if n < 10 then 48 + n else 87 + n

/-- Modelled from the spec: Python 2's `unicode-escape` encoding of one code
point (the codec machinery is external to the repository; the spec calls the
score "the number of raw escape sequences the re-encoded text would still
require").  Tab, newline, carriage return and backslash use letter escapes,
printable ASCII is literal, other points below 0x100 become a 4-byte
hex escape, points up to 0xffff a 6-byte one, larger ones a 10-byte one. -/
def unicodeEscape (c : Nat) : List Nat :=
  if c = 9 then [92, 116]
  else if c = 10 then [92, 110]
  else if c = 13 then [92, 114]
  else if c = 92 then [92, 92]
  else if 32 ≤ c ∧ c ≤ 126 then [c]
  else if c ≤ 255 then [92, 120, hexDigit (c / 16), hexDigit (c % 16)]
  else if c ≤ 65535 then
    [92, 117, hexDigit (c / 4096), hexDigit (c / 256 % 16), hexDigit (c / 16 % 16),
     hexDigit (c % 16)]
  else
    [92, 85, hexDigit (c / 16 ^ 7 % 16), hexDigit (c / 16 ^ 6 % 16),
     hexDigit (c / 16 ^ 5 % 16), hexDigit (c / 16 ^ 4 % 16), hexDigit (c / 4096 % 16),
     hexDigit (c / 256 % 16), hexDigit (c / 16 % 16), hexDigit (c % 16)]

/-- `unicode-escape` encoding of a whole text string. -/
def unicodeEscapeStr (t : List Nat) : List Nat :=
  (t.map unicodeEscape).flatten

/-- `EncodedString._num_raw_bytes(string)`: per character of the escaped
form, 1 when it starts with a backslash-x escape and 2 when it starts with a
backslash-u escape. -/
def num_raw_bytes (t : List Nat) : Nat :=
  (t.map fun c =>
    (if (unicodeEscape c).take 2 = [92, 120] then 1 else 0) +
      (if (unicodeEscape c).take 2 = [92, 117] then 2 else 0)).sum

/-- Python `text.rstrip(unicode null)`: drop trailing zero code points. -/
def rstripNull (t : List Nat) : List Nat :=
  (t.reverse.dropWhile (· = 0)).reverse

/-- The trailing-null trimming retry loop for wide codecs in
`decode_unknown_charset`: while the data is non-empty and ends in a null
byte, drop that byte and retry the decode; the first success is
null-stripped and returned, running out of trailing nulls skips the codec
(`none`).  Fuel dominates the length of the data. -/
def utfTrimLoop (dec : Codec) (cp : String) : Nat → List Nat → Option (List Nat)
  | 0, _ => none
  | fuel + 1, d =>
    if d ≠ [] ∧ d.getLast? = some 0 then
      let d1 := d.dropLast
      match dec cp d1 with
      | some out => some (rstripNull out)
      | none => utfTrimLoop dec cp fuel d1
    else none

/-- One candidate attempt of the detection loop: decode and null-strip; on
failure, wide codecs get the trimming retry, other codecs are skipped. -/
def tryCodePage (dec : Codec) (data : List Nat) (cp : String) : Option (List Nat) :=
  match dec cp data with
  | some out => some (rstripNull out)
  | none =>
    if cp ∈ wideCodecs then utfTrimLoop dec cp (data.length + 1) data
    else none

/-- The candidate loop of `decode_unknown_charset` over the remaining code
pages, threading `(best_score, best_code_page, best_output)`; a candidate
replaces the best when the best output is still falsy (`None` or empty) or
its score is strictly lower. -/
def detectLoop (dec : Codec) (data : List Nat) :
    List String → Nat × Option String × Option (List Nat) →
    Nat × Option String × Option (List Nat)
  | [], st => st
  | cp :: rest, (bs, bcp, bout) =>
    match tryCodePage dec data cp with
    | none => detectLoop dec data rest (bs, bcp, bout)
    | some out =>
      let score := num_raw_bytes out
      if bout = none ∨ bout = some [] ∨ score < bs then
        detectLoop dec data rest (score, some cp, some out)
      else
        detectLoop dec data rest (bs, bcp, bout)

/-- `EncodedString.decode_unknown_charset`: returns the best-guess text and
the (possibly updated) entity.  Empty text for unset `decoded_data`; text
data is returned as is; a previously recorded truthy `code_page` is tried
first and returned raw on success; otherwise full detection runs, and a
truthy best output records its codec on the entity. -/
def EncodedString.decode_unknown_charset (dec : Codec) (s : EncodedString) :
    List Nat × EncodedString :=
  if s.decoded_data = INVALID ∨ s.decoded_data = PyVal.unused then ([], s)
  else
    match s.decoded_data with
    | PyVal.text t => (t, s)
    | PyVal.bytes data =>
      let viaRecorded : Option (List Nat) :=
        match s.code_page with
        | some cp => if cp ≠ "" then dec cp data else none
        | none => none
      match viaRecorded with
      | some out => (out, s)
      | none =>
        match detectLoop dec data CODE_PAGES (data.length, none, none) with
        | (_, bcp, some out) =>
          if out ≠ [] then (out, { s with code_page := bcp }) else ([], s)
        | (_, _, none) => ([], s)
    | _ => ([], s)

/-- 16-bit code units of a byte string, big- or little-endian; fails on odd
length. -/
def utf16Units (be : Bool) : List Nat → Option (List Nat)
  | [] => some []
  | [_] => none
  | a :: b :: rest =>
    let u := if be then a * 256 + b else b * 256 + a
    (utf16Units be rest).map (u :: ·)

/-- Surrogate-pair combination for UTF-16: a high surrogate must be followed
by a low surrogate, lone surrogates fail. -/
def combineSurrogates : List Nat → Option (List Nat)
  | [] => some []
  | [u] => if 55296 ≤ u ∧ u ≤ 57343 then none else some [u]
  | u :: v :: rest =>
    if 55296 ≤ u ∧ u ≤ 56319 then
      if 56320 ≤ v ∧ v ≤ 57343 then
        (combineSurrogates rest).map ((65536 + (u - 55296) * 1024 + (v - 56320)) :: ·)
      else none
    else if 56320 ≤ u ∧ u ≤ 57343 then none
    else (combineSurrogates (v :: rest)).map (u :: ·)

/-- UTF-32 decoding: four-byte groups forming a scalar value below 0x110000
outside the surrogate range; anything else fails. -/
def utf32Decode (be : Bool) : List Nat → Option (List Nat)
  | [] => some []
  | a :: b :: c :: d :: rest =>
    let u :=
      if be then ((a * 256 + b) * 256 + c) * 256 + d
      else ((d * 256 + c) * 256 + b) * 256 + a
    if u ≤ 1114111 ∧ ¬(55296 ≤ u ∧ u ≤ 57343) then (utf32Decode be rest).map (u :: ·)
    else none
  | _ => none

/-- UTF-8 decoding with the standard lead/continuation byte ranges. -/
def utf8Decode : List Nat → Option (List Nat)
  | [] => some []
  | a :: rest =>
    if a < 128 then (utf8Decode rest).map (a :: ·)
    else if 194 ≤ a ∧ a ≤ 223 then
      match rest with
      | b :: rest1 =>
        if 128 ≤ b ∧ b ≤ 191 then
          (utf8Decode rest1).map (((a - 192) * 64 + (b - 128)) :: ·)
        else none
      | _ => none
    else if 224 ≤ a ∧ a ≤ 239 then
      match rest with
      | b :: c :: rest1 =>
        if 128 ≤ b ∧ b ≤ 191 ∧ 128 ≤ c ∧ c ≤ 191 then
          let u := ((a - 224) * 64 + (b - 128)) * 64 + (c - 128)
          if 2048 ≤ u ∧ ¬(55296 ≤ u ∧ u ≤ 57343) then (utf8Decode rest1).map (u :: ·)
          else none
        else none
      | _ => none
    else if 240 ≤ a ∧ a ≤ 244 then
      match rest with
      | b :: c :: d :: rest1 =>
        if 128 ≤ b ∧ b ≤ 191 ∧ 128 ≤ c ∧ c ≤ 191 ∧ 128 ≤ d ∧ d ≤ 191 then
          let u := (((a - 240) * 64 + (b - 128)) * 64 + (c - 128)) * 64 + (d - 128)
          if 65536 ≤ u ∧ u ≤ 1114111 then (utf8Decode rest1).map (u :: ·)
          else none
        else none
      | _ => none
    else none

/-- Modelled from the spec: the external codec capability instantiated for
concrete runs ("Code page / codec: a specific byte-to-text decoding scheme";
the source notes that "latin1 is always is successful").  ASCII rejects bytes
over 0x7f, latin1 maps every byte to itself, and the UTF codecs are
implemented below.  The East-Asian, Cyrillic and Arabic code pages of
`CODE_PAGES` are modelled only on their shared ASCII-compatible range (all
concrete inputs in this file stay below 0x80, where each of them decodes a
byte to the identical code point). -/
def pyDecode : Codec := fun cp data =>
  if cp = "ascii" then (if data.all (· < 128) then some data else none)
  else if cp = "latin1" then some data
  else if cp = "utf-8" then utf8Decode data
  else if cp = "utf-16-le" then (utf16Units false data).bind combineSurrogates
  else if cp = "utf-16-be" then (utf16Units true data).bind combineSurrogates
  else if cp = "utf-32-le" then utf32Decode false data
  else if cp = "utf-32-be" then utf32Decode true data
  else if data.all (· < 128) then some data
  else none

/-- Concatenation of single-byte null-terminated strings:
`joinNullTerm [s1, s2, ...] = s1 ++ [0] ++ s2 ++ [0] ++ ...`. -/
def joinNullTerm (ss : List (List Nat)) : List Nat :=
  ss.foldr (fun s acc => s ++ 0 :: acc) []

/-- The carving list `split_decoded_string` produces on a buffer of
null-terminated strings, in the splitter's right-to-left append order:
the last string first, each re-terminated, tagged with its start offset. -/
def carveList : List (List Nat) → Nat → List (List Nat × Nat)
  | [], _ => []
  | t :: rest, off => carveList rest (off + t.length + 1) ++ [(t ++ [0], off)]

/-! ## Function locator and discovery drivers -/

/-- External IDA capabilities consumed by the function locator and drivers
(the Binary Context of the spec): function bounds lookup, function creation,
name lookup, cross-reference enumeration, renaming and segment names. -/
structure IdaCtx where
  get_func : Int → Option (Int × Int)
  create_function_precise : Int → Bool
  get_func_after_create : Int → Option (Int × Int)
  get_func_name : Int → Option String
  xrefs : Int → List Int
  setName : Int → String → Option String
  segName : Int → String

/-- The function locator: class `SuperFunc_t` of decoderutils.py. -/
structure SuperFuncT where
  origin_ea : Int
  identifier : Option String
  startEA : Int
  endEA : Int
  name : Option String
  xrefs_to : List Int
  xref_count : Nat
deriving DecidableEq

/-- `SuperFunc_t.__init__`: resolve the containing function (optionally
creating it via the function-creation capability and then looking it up
again, raising `AttributeError` when that fails), record name and bounds,
and collect `xrefs_to` as all cross-references to `startEA` whose source's
function name differs from this function's name. -/
def SuperFunc_t_init (ctx : IdaCtx) (ea : Int) (identifier : Option String)
    (create_if_not_exists : Bool) : Except PyErr SuperFuncT :=
  let bounds : Except PyErr (Int × Int) :=
    match ctx.get_func ea with
    | some b => .ok b
    | none =>
      if create_if_not_exists then
        if ctx.create_function_precise ea then
          match ctx.get_func_after_create ea with
          | some b => .ok b
          | none => .error .attributeError
        else .error .attributeError
      else .error .attributeError
  bounds.map fun b =>
    let nm := ctx.get_func_name b.1
    let xr := (ctx.xrefs b.1).filter fun frm => ctx.get_func_name frm ≠ nm
    { origin_ea := ea, identifier := identifier, startEA := b.1, endEA := b.2,
      name := nm, xrefs_to := xr, xref_count := xr.length }

/-- `SuperFunc_t.rename`: an empty name resets IDA's default without touching
the recorded `name`; otherwise the host applies the (possibly
collision-adjusted) name, which is recorded when the host reports success. -/
def SuperFuncT.rename (ctx : IdaCtx) (sf : SuperFuncT) (new_name : String) : SuperFuncT :=
  if new_name = "" then sf
  else
    match ctx.setName sf.startEA new_name with
    | some resolved => { sf with name := some resolved }
    | none => sf

/-- Repr-based set key of a `SuperFunc_t` (`__hash__` hashes `__repr__`,
which formats name and bounds). -/
def SuperFuncT.reprKey (sf : SuperFuncT) : Option String × Int × Int :=
  (sf.name, sf.startEA, sf.endEA)

/-- Pluggable string tracer: constructing at an address and running
`search()`, producing the accumulated `EncodedString` list; `.error` models
the `AttributeError` of a failed construction. -/
def Tracer : Type := Int → Option String → Except PyErr (Bool × List EncodedString)

/-- `make_superfunc_t_from_hits`: one locator per yara match (skipping
`BADADDR`), renamed when a name is given, deduplicated through a set keyed by
repr.  A construction failure (`AttributeError`) propagates.  Python's set
iteration order is unspecified; it is modelled as first-insertion order,
which no claim depends on. -/
def make_superfunc_t_from_hits (ctx : IdaCtx) (hits : List (Int × String))
    (func_name : Option String) : Except PyErr (List SuperFuncT) :=
  let build : Except PyErr (List SuperFuncT) :=
    hits.foldl
      (fun acc m =>
        match acc with
        | .error e => .error e
        | .ok fs =>
          if m.1 = BADADDR then .ok fs
          else
            match SuperFunc_t_init ctx m.1 (some m.2) true with
            | .error e => .error e
            | .ok sf =>
              let sf1 :=
                match func_name with
                | some nm => sf.rename ctx nm
                | none => sf
              .ok (fs ++ [sf1]))
      (.ok [])
  build.map fun fs =>
    (fs.foldl
      (fun (acc : List SuperFuncT × List (Option String × Int × Int)) sf =>
        if sf.reprKey ∈ acc.2 then acc else (acc.1 ++ [sf], acc.2 ++ [sf.reprKey]))
      ([], [])).1

/-- `find_encoded_strings_inline`: instantiate the tracer directly at each
match address; construction failures and failed searches are logged and that
match is skipped. -/
def find_encoded_strings_inline (tracer : Tracer) (hits : List (Int × String)) :
    List EncodedString :=
  hits.foldl
    (fun acc m =>
      match tracer m.1 (some m.2) with
      | .ok (true, strs) => acc ++ strs
      | .ok (false, _) => acc
      | .error _ => acc)
    []

/-- `find_encoded_strings`: for every non-recursive caller of each located
function, skip callers in the `.pdata` segment, otherwise run a tracer at the
caller address with the function's identifier, skipping failures. -/
def find_encoded_strings (ctx : IdaCtx) (tracer : Tracer) (funcs : List SuperFuncT) :
    List EncodedString :=
  funcs.foldl
    (fun acc f =>
      f.xrefs_to.foldl
        (fun acc2 ref =>
          if ctx.segName ref = ".pdata" then acc2
          else
            match tracer ref f.identifier with
            | .ok (true, strs) => acc2 ++ strs
            | .ok (false, _) => acc2
            | .error _ => acc2)
        acc)
    []

/-! ## The decode pipeline (`decode_strings`) -/

/-- Debug-channel records of `decode_strings` (`append_debug` calls). -/
inductive DecodeLog where
  | unresolved : PyVal → DecodeLog
  | decodeFailed : DecodeLog
deriving DecidableEq

/-- Result of `decode_strings`: the input entities after mutation, the
returned list of successfully decoded entities, and the debug log. -/
structure DecodeStringsResult where
  post : List EncodedString
  decoded : List EncodedString
  log : List DecodeLog
deriving DecidableEq

/-- `decode_strings(encoded_strings, decode)`: entities with unresolved
`encoded_data` are logged and skipped untouched; for the rest,
`decoded_data` is set to the decode function's result, and the entity is kept
exactly when that result is truthy, a falsy result being logged and dropped. -/
def decode_strings (encoded_strings : List EncodedString) (decode : EncodedString → PyVal) :
    DecodeStringsResult :=
  match encoded_strings with
  | [] => { post := [], decoded := [], log := [] }
  | e :: rest =>
    let r := decode_strings rest decode
    if e.encoded_data = INVALID then
      { post := e :: r.post, decoded := r.decoded,
        log := DecodeLog.unresolved e.string_location :: r.log }
    else
      let e1 := { e with decoded_data := decode e }
      if (decode e).truthy then
        { post := e1 :: r.post, decoded := e1 :: r.decoded, log := r.log }
      else
        { post := e1 :: r.post, decoded := r.decoded, log := DecodeLog.decodeFailed :: r.log }

/-! ## The output stage (`output_strings`) -/

/-- Rank of a `PyVal` in Python 2's cross-type ordering, modelled from the
spec's ordering-key contract: `None` sorts below numbers, numbers below
strings (the claims never compare a byte string against a text string). -/
def PyVal.typeRank : PyVal → Nat
  | .unused => 0
  | .int _ => 1
  | .bytes _ => 2
  | .text _ => 3

/-- Lexicographic strict order on lists of naturals. -/
def lexLt : List Nat → List Nat → Bool
  | [], [] => false
  | [], _ :: _ => true
  | _ :: _, [] => false
  | a :: as, b :: bs => if a = b then lexLt as bs else a < b

/-- Strict comparison of two `PyVal`s under the modelled Python 2 ordering. -/
def pyValLt (a b : PyVal) : Bool :=
  if a.typeRank ≠ b.typeRank then a.typeRank < b.typeRank
  else
    match a, b with
    | .int m, .int n => m < n
    | .bytes x, .bytes y => lexLt x y
    | .text x, .text y => lexLt x y
    | _, _ => false

/-- Strict comparison of entity compare keys
(`(string_location, string_reference, decoded_data)` lexicographically). -/
def keyLt (a b : PyVal × PyVal × PyVal) : Bool :=
  pyValLt a.1 b.1 ||
    (a.1 = b.1 && (pyValLt a.2.1 b.2.1 || (a.2.1 = b.2.1 && pyValLt a.2.2 b.2.2)))

/-- Set-based deduplication of `output_strings` (`set(decoded_strings)`):
entities with an already-seen compare key are dropped, the first inserted
representative survives. -/
def dedupByKey (l : List EncodedString) : List EncodedString :=
  (l.foldl
    (fun (acc : List EncodedString × List (PyVal × PyVal × PyVal)) e =>
      if e.compare_key ∈ acc.2 then acc else (acc.1 ++ [e], acc.2 ++ [e.compare_key]))
    ([], [])).1

/-- `output_strings(decoded_strings, dedup, ...)`: deduplicate when requested,
sort by the natural entity ordering, and emit each entity's `str()` form (its
best-guess text, unicode-escape encoded).  The rename/comment/patch calls are
Binary Context side effects that do not influence the returned list. -/
def output_strings (dec : Codec) (decoded_strings : List EncodedString) (dedup : Bool) :
    List (List Nat) :=
  let lst := if dedup then dedupByKey decoded_strings else decoded_strings
  let sortedLst := stableSortBy (fun a b => keyLt a.compare_key b.compare_key) lst
  sortedLst.map fun e => unicodeEscapeStr (e.decode_unknown_charset dec).1

/-! ## The engine entry point (`string_decoder_main`) -/

/-- `generic_run_yara`: applies the rule and returns the collected
`(location, identifier)` hits; the match list is an input because the
Pattern Matcher is external. -/
def generic_run_yara (hits : List (Int × String)) : List (Int × String) :=
  hits

/-- `yara_find_decode_functions`: raises `RuntimeError` when the rule did not
match, otherwise builds the locators from the hits. -/
def yara_find_decode_functions (ctx : IdaCtx) (hits : List (Int × String))
    (func_name : Option String) : Except PyErr (List SuperFuncT) :=
  if hits = [] then .error .runtimeError
  else make_superfunc_t_from_hits ctx hits func_name

/-- Observable outcome of one engine run: the returned string list (`none`
models the bare `return` paths) and whether the fatal pattern-match failure
was reported on the debug channel. -/
structure RunResult where
  result : Option (List (List Nat))
  fatalPatternReport : Bool
deriving DecidableEq

/-- `string_decoder_main(yara_rule, Tracer, decode, patch, func_name,
inline)`: guard clauses for the tracer contract and the input file, then the
pipeline; a `RuntimeError` (rule never matched) is caught and reported with
no output, while `AttributeError` from locator construction propagates. -/
def string_decoder_main (ctx : IdaCtx) (dec : Codec) (tracer : Tracer)
    (decode : EncodedString → PyVal) (hits : List (Int × String))
    (tracer_ok input_file_found : Bool) (func_name : Option String) (inline : Bool) :
    Except PyErr RunResult :=
  if tracer_ok = false then .ok { result := none, fatalPatternReport := false }
  else if input_file_found = false then .ok { result := none, fatalPatternReport := false }
  else
    let pipeline : Except PyErr (List (List Nat)) := do
      let encoded ←
        if inline then
          pure (find_encoded_strings_inline tracer (generic_run_yara hits))
        else do
          let funcs ← yara_find_decode_functions ctx hits func_name
          pure (find_encoded_strings ctx tracer funcs)
      let decoded := (decode_strings encoded decode).decoded
      pure (output_strings dec decoded true)
    match pipeline with
    | .ok lst => .ok { result := some lst, fatalPatternReport := false }
    | .error .runtimeError => .ok { result := none, fatalPatternReport := true }
    | .error e => .error e

/-! ## Concrete entities and contexts used by the claim instances -/

/-- Template entity at location 0x1000 with the given decoded buffer and
recorded size. -/
def mkDecodedES (d : List Nat) : EncodedString :=
  { string_location := PyVal.int 4096, string_reference := PyVal.int 8192,
    size := PyVal.int (d.length : Int), offset := INVALID, key := INVALID,
    encoded_data := PyVal.bytes (d.map fun _ => 1),
    decoded_data := PyVal.bytes d, code_page := none }

/-- Buffer holding the single null-terminated single-byte string "ab". -/
def c1ex : EncodedString := mkDecodedES (joinNullTerm [[97, 98]])

/-- Buffer holding the two single-byte strings "abc" and "de". -/
def c1wit : EncodedString := mkDecodedES (joinNullTerm [[97, 98, 99], [100, 101]])

/-- The spec's mixed-width example buffer `AB⟍0⟍0C⟍0D⟍0⟍0` (nulls written
as 0): conceptually a double-byte-terminated string followed by two
single-byte strings. -/
def c2ex : EncodedString := mkDecodedES [65, 66, 0, 0, 67, 0, 68, 0, 0]

/-- First entity the splitter actually produces on `c2ex`. -/
def c2res1 : EncodedString :=
  { c2ex with
    decoded_data := PyVal.bytes [65, 66, 0]
    size := PyVal.int 3
    offset := PyVal.int 0 }

/-- Second entity the splitter actually produces on `c2ex`: the section
`C⟍0D` is carved as one string, not two. -/
def c2res2 : EncodedString :=
  { c2ex with
    decoded_data := PyVal.bytes [67, 0, 68, 0]
    size := PyVal.int 4
    offset := PyVal.int 4 }

/-- Entity whose decoded bytes are "AB" followed by one null byte. -/
def c3s : EncodedString := mkDecodedES [65, 66, 0]

/-- First call of the charset detector on `c3s`. -/
def c3first : List Nat × EncodedString := c3s.decode_unknown_charset pyDecode

/-- Entity whose decoded bytes are `A⟍0B⟍0⟍0`: a little-endian UTF-16
buffer with a byte-misaligned tail. -/
def c4s : EncodedString := mkDecodedES [65, 0, 66, 0, 0]

/-- Entity whose decoded bytes are "AB" with no trailing null: on such data
repeated detector calls agree. -/
def c3ws : EncodedString := mkDecodedES [65, 66]

/-- Entity whose decoded bytes are the printable ASCII text "Hi". -/
def c9ws : EncodedString := mkDecodedES [72, 105]

/-- Trivial IDA context for runs that never touch the Binary Context. -/
def ctx0 : IdaCtx :=
  { get_func := fun _ => none, create_function_precise := fun _ => false,
    get_func_after_create := fun _ => none,
    get_func_name := fun _ => none, xrefs := fun _ => [],
    setName := fun _ _ => none, segName := fun _ => "" }

/-- Codec capability that always fails (never consulted in the zero-match
runs). -/
def dec0 : Codec := fun _ _ => none

/-- Tracer whose search always reports failure (never consulted in the
zero-match runs). -/
def tracer0 : Tracer := fun _ _ => .ok (false, [])

/-- Decode function that always aborts (never consulted in the zero-match
runs). -/
def decode0 : EncodedString → PyVal := fun _ => PyVal.unused

/-- An inline-mode engine run in which the Pattern Matcher finds zero
matches. -/
def c5run : Except PyErr RunResult :=
  string_decoder_main ctx0 dec0 tracer0 decode0 [] true true none true

/-- Memory capability returning a fixed readable block. -/
def memC7 : Mem := fun _ _ => some [7, 7, 7, 7]

/-- Entity built with `size = UNUSED` (a size that was never computed). -/
def c7ex : EncodedString :=
  { string_location := PyVal.int 4096, string_reference := INVALID,
    size := PyVal.unused, offset := INVALID, key := INVALID,
    encoded_data := INVALID, decoded_data := INVALID, code_page := none }

/-- IDA context for the function-locator claims: a function `decoder` spans
`[5000, 5100)`, and address 100 (inside `caller`) references its start twice
(for example one code and one data cross-reference from the same
instruction). -/
def c8ctx : IdaCtx :=
  { get_func := fun ea => if 5000 ≤ ea ∧ ea < 5100 then some (5000, 5100) else none,
    create_function_precise := fun _ => false,
    get_func_after_create := fun _ => none,
    get_func_name := fun ea => if 5000 ≤ ea ∧ ea < 5100 then some "decoder" else some "caller",
    xrefs := fun ea => if ea = 5000 then [100, 100] else [],
    setName := fun _ _ => none, segName := fun _ => "" }

/-- The `xrefs_to` list of the locator constructed at 5000 in `c8ctx`. -/
def c8xrefs : List Int :=
  match SuperFunc_t_init c8ctx 5000 (some "decode_rule") true with
  | .ok sf => sf.xrefs_to
  | .error _ => []

/-- The locator value constructed at 5000 in `c8ctx`. -/
def c8sfv : SuperFuncT :=
  { origin_ea := 5000, identifier := some "decode_rule", startEA := 5000, endEA := 5100,
    name := some "decoder", xrefs_to := [100, 100], xref_count := 2 }

end Kordesii

namespace Kordesii

/-! ## Counterexamples refuting the literal claims -/

/-- C1 counterexample: the buffer "ab" followed by a single null is composed
only of single-byte null-terminated strings, yet the splitter returns one
entity with decoded data `ab⟍0⟍0` (a second null appended), so the results
re-joined with single nulls do not reproduce the original set of
null-terminated substrings. -/
theorem c1_counterexample :
    ¬ List.Perm ((split_decoded_string c1ex).map fun r => r.decoded_data)
      [PyVal.bytes [97, 98, 0]] := by
  decide

/-- C2 counterexample: on the spec's own example buffer the splitter returns
two entities, not the expected three (the conceptual strings `AB`, `C`,
`D`). -/
theorem c2_counterexample : (split_decoded_string c2ex).length ≠ 3 := by
  decide

/-- C3 counterexample: on decoded bytes `AB⟍0` the first call returns the
null-stripped text `AB` and records `ascii`, but the second call returns the
recorded code page's decode of the full buffer without stripping, `AB⟍0` —
repeated calls do not return the same text. -/
theorem c3_counterexample :
    c3first.1 = [65, 66] ∧
      (c3first.2.decode_unknown_charset pyDecode).1 = [65, 66, 0] ∧
      ([65, 66] : List Nat) ≠ [65, 66, 0] := by
  decide

/-- C4 counterexample: on decoded bytes `A⟍0B⟍0⟍0` the detector records
`utf-16-le`, which won only after trimming the odd trailing null byte; the
recorded codec fails to decode the entity's full `decoded_data`. -/
theorem c4_counterexample :
    (c4s.decode_unknown_charset pyDecode).2.code_page = some "utf-16-le" ∧
      pyDecode "utf-16-le" [65, 0, 66, 0, 0] = none := by
  decide

/-- C5 counterexample: an inline-mode run with zero Pattern Matcher matches
completes normally, reports no fatal pattern-match failure, and returns an
(empty) output list rather than no output. -/
theorem c5_counterexample :
    c5run = .ok { result := some [], fatalPatternReport := false } ∧
      some ([] : List (List Nat)) ≠ none := by
  constructor
  · rfl
  · decide

/-- C7 counterexample: with `size = UNUSED` the size was never computed, yet
`get_bytes` does not raise the size-unknown `ValueError`: it returns an empty
byte string. -/
theorem c7_counterexample :
    c7ex.size = PyVal.unused ∧ EncodedString.get_bytes memC7 c7ex = .ok (PyVal.bytes []) :=
  ⟨rfl, rfl⟩

/-- C8 counterexample: two cross-references from the same caller address
survive the filter untouched, so the constructed `xrefs_to` list contains a
duplicate address — it is not deduplicated. -/
theorem c8_counterexample : c8xrefs = [100, 100] ∧ ¬ c8xrefs.Nodup := by
  decide

/-! ## Lemmas about the stable sort -/

/-- Stable insertion produces a permutation of consing. -/
theorem insertAsc_perm (lt : α → α → Bool) (a : α) (l : List α) :
    List.Perm (insertAsc lt a l) (a :: l) := by
  induction l with
  | nil => exact List.Perm.refl _
  | cons b bs ih =>
    simp only [insertAsc]
    by_cases hb : lt b a = true
    · rw [if_pos hb]
      exact (ih.cons b).trans (List.Perm.swap a b bs)
    · rw [if_neg hb]

/-- The stable sort is a permutation of its input (Python `list.sort` only
reorders). -/
theorem stableSortBy_perm (lt : α → α → Bool) (l : List α) :
    List.Perm (stableSortBy lt l) l := by
  induction l with
  | nil => exact List.Perm.refl _
  | cons x xs ih =>
    exact (insertAsc_perm lt x (stableSortBy lt xs)).trans (ih.cons x)

/-! ## Lemmas about the charset detector -/

/-- Every candidate codec name in `CODE_PAGES` is non-empty (a truthy
`code_page` value in Python). -/
theorem code_pages_nonempty : ∀ cp ∈ CODE_PAGES, cp ≠ "" := by decide

/-- Updating `code_page` with the value it already holds changes nothing. -/
theorem set_code_page_self (s : EncodedString) (cp : Option String) (h : s.code_page = cp) :
    { s with code_page := cp } = s := by
  cases s
  simp_all

/-- Stripping trailing nulls from a null-free text changes nothing. -/
theorem rstripNull_eq_self (t : List Nat) (h : ∀ b ∈ t, b ≠ 0) : rstripNull t = t := by
  unfold rstripNull
  have : t.reverse.dropWhile (fun b => decide (b = 0)) = t.reverse := by
    cases hr : t.reverse with
    | nil => rfl
    | cons b rest =>
      have hb : b ∈ t := by
        have : b ∈ t.reverse := by rw [hr]; exact List.mem_cons_self b rest
        exact List.mem_reverse.mp this
      rw [List.dropWhile_cons]
      simp [h b hb]
  rw [this, List.reverse_reverse]

/-- A printable ASCII code point contributes nothing to the raw-byte score. -/
theorem escTerm_zero (c : Nat) (h1 : 32 ≤ c) (h2 : c ≤ 126) :
    ((if (unicodeEscape c).take 2 = [92, 120] then 1 else 0) +
        (if (unicodeEscape c).take 2 = [92, 117] then 2 else 0)) = 0 := by
  have h9 : ¬ c = 9 := by omega
  have h10 : ¬ c = 10 := by omega
  have h13 : ¬ c = 13 := by omega
  by_cases hc : c = 92
  · subst hc; decide
  · simp [unicodeEscape, h9, h10, h13, hc, h1, h2]

/-- A printable ASCII text scores zero raw escape sequences. -/
theorem num_raw_bytes_zero (t : List Nat) (h : ∀ c ∈ t, 32 ≤ c ∧ c ≤ 126) :
    num_raw_bytes t = 0 := by
  induction t with
  | nil => rfl
  | cons c rest ih =>
    have hc := h c (List.mem_cons_self c rest)
    have hrest := fun x hx => h x (List.mem_cons_of_mem c hx)
    simp only [num_raw_bytes, List.map_cons, List.sum_cons]
    rw [escTerm_zero c hc.1 hc.2]
    simpa [num_raw_bytes] using ih hrest

/-- A best candidate with score zero and truthy output is never replaced by
later candidates. -/
theorem detectLoop_fixed (dec : Codec) (data : List Nat) (cps : List String) (c : String)
    (o : List Nat) (ho : o ≠ []) :
    detectLoop dec data cps (0, some c, some o) = (0, some c, some o) := by
  induction cps with
  | nil => rfl
  | cons cp rest ih =>
    cases htry : tryCodePage dec data cp with
    | none => simp only [detectLoop, htry]; exact ih
    | some out =>
      simp only [detectLoop, htry]
      rw [if_neg (by simp [ho])]
      exact ih

/-- Winner invariant of the candidate loop: whenever the final state carries
a best code page, that code page is one of the processed candidates, its
attempt succeeded, and the final best output is exactly that attempt's
output. -/
theorem detectLoop_winner (dec : Codec) (data : List Nat) (cps : List String)
    (st : Nat × Option String × Option (List Nat))
    (hcps : ∀ c ∈ cps, c ∈ CODE_PAGES)
    (hst : ∀ cp, st.2.1 = some cp →
      cp ∈ CODE_PAGES ∧ ∃ o, tryCodePage dec data cp = some o ∧ st.2.2 = some o) :
    ∀ cp, (detectLoop dec data cps st).2.1 = some cp →
      cp ∈ CODE_PAGES ∧
        ∃ o, tryCodePage dec data cp = some o ∧ (detectLoop dec data cps st).2.2 = some o := by
  induction cps generalizing st with
  | nil => exact hst
  | cons cp0 rest ih =>
    obtain ⟨bs, bcp, bout⟩ := st
    cases htry : tryCodePage dec data cp0 with
    | none =>
      simp only [detectLoop, htry]
      exact ih _ (fun c hc => hcps c (List.mem_cons_of_mem cp0 hc)) hst
    | some out =>
      simp only [detectLoop, htry]
      by_cases hrep : bout = none ∨ bout = some [] ∨ num_raw_bytes out < bs
      · rw [if_pos hrep]
        refine ih _ (fun c hc => hcps c (List.mem_cons_of_mem cp0 hc)) ?_
        intro cp1 h1
        obtain rfl := Option.some.inj h1
        exact ⟨hcps cp0 (List.mem_cons_self cp0 rest), out, htry, rfl⟩
      · rw [if_neg hrep]
        exact ih _ (fun c hc => hcps c (List.mem_cons_of_mem cp0 hc)) hst

/-- One step of the candidate loop when the attempt succeeds and replaces
the current best. -/
theorem detectLoop_cons_some (dec : Codec) (data : List Nat) (cp : String)
    (rest : List String) (bs : Nat) (bcp : Option String) (bout : Option (List Nat))
    (out : List Nat) (h : tryCodePage dec data cp = some out)
    (hrep : bout = none ∨ bout = some [] ∨ num_raw_bytes out < bs) :
    detectLoop dec data (cp :: rest) (bs, bcp, bout) =
      detectLoop dec data rest (num_raw_bytes out, some cp, some out) := by
  simp only [detectLoop, h, if_pos hrep]

/-- A successful candidate attempt either comes from a plain decode of the
full buffer (null-stripped) or, failing that, from the wide-codec trimming
retry. -/
theorem tryCodePage_cases (dec : Codec) (data : List Nat) (cp : String) (o : List Nat)
    (h : tryCodePage dec data cp = some o) :
    (∃ out, dec cp data = some out ∧ o = rstripNull out) ∨
      (dec cp data = none ∧ utfTrimLoop dec cp (data.length + 1) data = some o) := by
  unfold tryCodePage at h
  cases hdec : dec cp data with
  | some out =>
    rw [hdec] at h
    cases h
    exact Or.inl ⟨out, rfl, rfl⟩
  | none =>
    rw [hdec] at h
    by_cases hw : cp ∈ wideCodecs
    · rw [if_pos hw] at h
      exact Or.inr ⟨rfl, h⟩
    · rw [if_neg hw] at h
      exact Option.noConfusion h

/-- A successful trimming retry decodes the buffer with one or more trailing
null bytes removed. -/
theorem utfTrimLoop_some (dec : Codec) (cp : String) :
    ∀ (fuel : Nat) (d o : List Nat), utfTrimLoop dec cp fuel d = some o →
      ∃ d1 k out, d = d1 ++ List.replicate k 0 ∧ 1 ≤ k ∧ dec cp d1 = some out ∧
        o = rstripNull out := by
  intro fuel
  induction fuel with
  | zero => intro d o h; exact Option.noConfusion h
  | succ n ih =>
    intro d o h
    simp only [utfTrimLoop] at h
    by_cases hc : d ≠ [] ∧ d.getLast? = some 0
    · rw [if_pos hc] at h
      have hsplit : d = d.dropLast ++ [0] := by
        have h1 := List.dropLast_append_getLast hc.1
        have h2 : d.getLast hc.1 = 0 := by
          have := List.getLast?_eq_getLast d hc.1
          rw [this] at hc
          exact (Option.some.injEq _ _).mp hc.2
        rw [← h2]
        exact h1.symm
      cases hdec : dec cp d.dropLast with
      | some out =>
        rw [hdec] at h
        cases h
        exact ⟨d.dropLast, 1, out, by simpa using hsplit, le_refl 1, hdec, rfl⟩
      | none =>
        rw [hdec] at h
        obtain ⟨d1, k, out, hd, hk, hdec1, ho⟩ := ih d.dropLast o h
        refine ⟨d1, k + 1, out, ?_, by omega, hdec1, ho⟩
        rw [hsplit, hd, List.append_assoc]
        rw [← List.replicate_succ' ..]
    · rw [if_neg hc] at h
      exact Option.noConfusion h

/-- `decode_unknown_charset` on byte data with no recorded code page runs
full detection. -/
theorem decode_unknown_charset_detect (dec : Codec) (s : EncodedString) (data : List Nat)
    (hdata : s.decoded_data = PyVal.bytes data) (hcp : s.code_page = none) :
    s.decode_unknown_charset dec =
      match detectLoop dec data CODE_PAGES (data.length, none, none) with
      | (_, bcp, some out) => if out ≠ [] then (out, { s with code_page := bcp }) else ([], s)
      | (_, _, none) => ([], s) := by
  simp only [EncodedString.decode_unknown_charset, hdata, hcp]
  rw [if_neg (by simp [INVALID])]

/-- `decode_unknown_charset` with a recorded non-empty code page that decodes
the full buffer returns that decode unchanged (no null stripping) and leaves
the entity untouched. -/
theorem decode_unknown_charset_recorded_ok (dec : Codec) (s : EncodedString) (data : List Nat)
    (cp : String) (out : List Nat) (hdata : s.decoded_data = PyVal.bytes data)
    (hcp : s.code_page = some cp) (hne : cp ≠ "") (hdec : dec cp data = some out) :
    s.decode_unknown_charset dec = (out, s) := by
  simp only [EncodedString.decode_unknown_charset, hdata, hcp]
  rw [if_neg (by simp [INVALID])]
  simp only [if_pos hne, hdec]

/-- `decode_unknown_charset` with a recorded non-empty code page that fails
on the full buffer falls through to full detection. -/
theorem decode_unknown_charset_recorded_fail (dec : Codec) (s : EncodedString)
    (data : List Nat) (cp : String) (hdata : s.decoded_data = PyVal.bytes data)
    (hcp : s.code_page = some cp) (hne : cp ≠ "") (hdec : dec cp data = none) :
    s.decode_unknown_charset dec =
      match detectLoop dec data CODE_PAGES (data.length, none, none) with
      | (_, bcp, some out) => if out ≠ [] then (out, { s with code_page := bcp }) else ([], s)
      | (_, _, none) => ([], s) := by
  simp only [EncodedString.decode_unknown_charset, hdata, hcp]
  rw [if_neg (by simp [INVALID])]
  simp only [if_pos hne, hdec]

/-! ## Lemmas about the splitter on single-byte null-terminated buffers -/

/-- Joining distributes over append. -/
theorem joinNullTerm_append (xs ys : List (List Nat)) :
    joinNullTerm (xs ++ ys) = joinNullTerm xs ++ joinNullTerm ys := by
  induction xs with
  | nil => rfl
  | cons t l ih => simp [joinNullTerm, List.foldr_cons] at ih ⊢; rw [ih]

/-- Joining a single string appends its null terminator. -/
theorem joinNullTerm_singleton (u : List Nat) : joinNullTerm [u] = u ++ [0] := rfl

/-- Length of a joined cons. -/
theorem joinNullTerm_cons_length (t : List Nat) (xs : List (List Nat)) :
    (joinNullTerm (t :: xs)).length = t.length + 1 + (joinNullTerm xs).length := by
  show (t ++ 0 :: joinNullTerm xs).length = _
  simp
  omega

/-- A null-free list has no last null. -/
theorem lastNullIdx_of_nullfree (t : List Nat) (h : 0 ∉ t) : lastNullIdx t = none := by
  induction t with
  | nil => rfl
  | cons b rest ih =>
    have hb : b ≠ 0 := fun hb => h (hb ▸ List.mem_cons_self b rest)
    have hr : 0 ∉ rest := fun hr => h (List.mem_cons_of_mem b hr)
    simp [lastNullIdx, ih hr, hb]

/-- Appending a tail without nulls does not move the last null. -/
theorem lastNullIdx_append_of_none (xs ys : List Nat) (h : lastNullIdx ys = none) :
    lastNullIdx (xs ++ ys) = lastNullIdx xs := by
  induction xs with
  | nil => simpa using h
  | cons b rest ih => simp [lastNullIdx, ih]

/-- Appending a tail with a last null shifts that position. -/
theorem lastNullIdx_append_of_some (xs ys : List Nat) (i : Nat)
    (h : lastNullIdx ys = some i) :
    lastNullIdx (xs ++ ys) = some (xs.length + i) := by
  induction xs with
  | nil => simpa using h
  | cons b rest ih => simp [lastNullIdx, ih]; omega

/-- The last null of a buffer ending in a null terminator. -/
theorem lastNullIdx_append_null (xs : List Nat) :
    lastNullIdx (xs ++ [0]) = some xs.length := by
  have h0 : lastNullIdx [0] = some 0 := rfl
  rw [lastNullIdx_append_of_some xs [0] 0 h0]
  simp

/-- A singleton never contains two adjacent nulls. -/
theorem findDoubleNull_singleton (x : Nat) : findDoubleNull [x] = none := by
  cases x with
  | zero => rfl
  | succ n => rfl

/-- Skipping a non-null head byte. -/
theorem findDoubleNull_cons_of_ne (a : Nat) (ha : a ≠ 0) (l : List Nat) :
    findDoubleNull (a :: l) = (findDoubleNull l).map (· + 1) := by
  cases l with
  | nil => simp [findDoubleNull_singleton, findDoubleNull]
  | cons b l2 =>
    cases a with
    | zero => exact absurd rfl ha
    | succ n => rfl

/-- Skipping a null byte followed by a non-null byte. -/
theorem findDoubleNull_zero_cons_of_ne (b : Nat) (hb : b ≠ 0) (l : List Nat) :
    findDoubleNull (0 :: b :: l) = (findDoubleNull (b :: l)).map (· + 1) := by
  cases b with
  | zero => exact absurd rfl hb
  | succ n => rfl

/-- Skipping a whole null-free block. -/
theorem findDoubleNull_append_of_nullfree (s l : List Nat) (h : 0 ∉ s) :
    findDoubleNull (s ++ l) = (findDoubleNull l).map (· + s.length) := by
  induction s with
  | nil => simp
  | cons a rest ih =>
    have ha : a ≠ 0 := fun hz => h (hz ▸ List.mem_cons_self a rest)
    have hr : 0 ∉ rest := fun hm => h (List.mem_cons_of_mem a hm)
    rw [List.cons_append, findDoubleNull_cons_of_ne a ha, ih hr]
    cases findDoubleNull l with
    | none => rfl
    | some i => simp; omega

/-- A buffer of non-empty null-free single-byte strings, each terminated by
one null, contains no two adjacent nulls: the splitter sees one section. -/
theorem findDoubleNull_join (ss : List (List Nat))
    (h : ∀ t ∈ ss, t ≠ [] ∧ 0 ∉ t) : findDoubleNull (joinNullTerm ss) = none := by
  induction ss with
  | nil => rfl
  | cons t rest ih =>
    obtain ⟨htne, htnf⟩ := h t (List.mem_cons_self t rest)
    have hrest : ∀ x ∈ rest, x ≠ [] ∧ 0 ∉ x := fun x hx => h x (List.mem_cons_of_mem t hx)
    have hmain : findDoubleNull (0 :: joinNullTerm rest) = none := by
      cases hr : rest with
      | nil => rfl
      | cons t2 rest2 =>
        subst hr
        obtain ⟨ht2ne, ht2nf⟩ := hrest t2 (List.mem_cons_self t2 rest2)
        cases ht2 : t2 with
        | nil => exact absurd ht2 ht2ne
        | cons a t2tl =>
          subst ht2
          have ha : a ≠ 0 := fun hz => ht2nf (hz ▸ List.mem_cons_self a t2tl)
          have hih := ih hrest
          show findDoubleNull (0 :: a :: (t2tl ++ 0 :: joinNullTerm rest2)) = none
          rw [findDoubleNull_zero_cons_of_ne a ha]
          rw [show a :: (t2tl ++ 0 :: joinNullTerm rest2) =
            joinNullTerm ((a :: t2tl) :: rest2) from rfl]
          rw [hih]
          rfl
    show findDoubleNull (t ++ 0 :: joinNullTerm rest) = none
    rw [findDoubleNull_append_of_nullfree t (0 :: joinNullTerm rest) htnf, hmain]
    rfl

/-- A null-free list never yields the null default under `getD`. -/
theorem getD_ne_zero_of_nullfree (l : List Nat) (i : Nat) (h0 : 0 ∉ l) :
    l.getD i 1 ≠ 0 := by
  by_cases hi : i < l.length
  · rw [List.getD_eq_getElem l 1 hi]
    intro hz
    exact h0 (hz ▸ List.getElem_mem hi)
  · push_neg at hi
    rw [List.getD_eq_default l 1 (by omega)]
    omega

/-- Reading the byte right after a prefix. -/
theorem getD_append_length (A : List Nat) (x : Nat) (B : List Nat) :
    (A ++ x :: B).getD A.length 1 = x := by
  rw [List.getD_append_right A (x :: B) 1 A.length (le_refl _)]
  simp [List.getD]

/-- The stepping loop stops immediately when its condition fails. -/
theorem stepBack_stop (data : List Nat) (lo : Nat) (fuel : Nat) (p : Int)
    (h : ¬(p ≥ (lo : Int) ∧ data.getD p.toNat 1 = 0)) :
    stepBack data lo fuel p = p := by
  cases fuel with
  | zero => rfl
  | succ n => simp only [stepBack, if_neg h]

/-- The stepping loop takes one step when its condition holds. -/
theorem stepBack_step (data : List Nat) (lo : Nat) (fuel : Nat) (p : Int)
    (h : p ≥ (lo : Int) ∧ data.getD p.toNat 1 = 0) :
    stepBack data lo (fuel + 1) p = stepBack data lo fuel (p - 2) := by
  simp only [stepBack, if_pos h]

/-- `string_start` when the searched slice has no null at all: the section
start. -/
theorem computeStringStart_none (data : List Nat) (sstart sendv : Nat)
    (h : rfindNull data sstart sendv = none) :
    computeStringStart data sstart sendv = sstart := by
  simp [computeStringStart, h]

/-- `string_start` at a null that terminates a preceding string of length at
least two: the loop steps back once onto a non-null byte and lands one past
the null. -/
theorem computeStringStart_of_null (data : List Nat) (sendv r : Nat)
    (hr : rfindNull data 0 sendv = some r)
    (h0 : data.getD r 1 = 0)
    (h3 : 3 ≤ r)
    (hnz : data.getD (r - 2) 1 ≠ 0) :
    computeStringStart data 0 sendv = r + 1 := by
  simp only [computeStringStart, hr]
  have e1 : stepBack data 0 (r + 2) (r : Int) = stepBack data 0 (r + 1) ((r : Int) - 2) := by
    rw [show r + 2 = (r + 1) + 1 from rfl]
    refine stepBack_step data 0 (r + 1) (r : Int) ⟨by omega, ?_⟩
    rw [Int.toNat_natCast]
    exact h0
  have hcast : ((r : Int) - 2).toNat = r - 2 := by omega
  have e2 : stepBack data 0 (r + 1) ((r : Int) - 2) = (r : Int) - 2 := by
    refine stepBack_stop data 0 (r + 1) ((r : Int) - 2) ?_
    rw [hcast]
    intro hcon
    exact hnz hcon.2
  rw [e1, e2, if_pos (show (r : Int) - 2 > ((0 : Nat) : Int) by omega)]
  omega

/-- One unfolding of the inner splitting loop. -/
theorem innerLoop_succ (data : List Nat) (sstart fuel send : Nat) :
    innerLoop data sstart (fuel + 1) send =
      (if (data.take send).drop (computeStringStart data sstart send) = [] then []
        else [((data.take send).drop (computeStringStart data sstart send) ++ [0],
          computeStringStart data sstart send)]) ++
        (if computeStringStart data sstart send = sstart then []
          else innerLoop data sstart fuel (computeStringStart data sstart send - 1)) := by
  simp only [innerLoop]
  by_cases hst : computeStringStart data sstart send = sstart
  · rw [if_pos hst, if_pos hst, List.append_nil]
  · rw [if_neg hst, if_neg hst]

/-- Peeling the last string off the carving list. -/
theorem carveList_append (xs : List (List Nat)) (u : List Nat) (off : Nat) :
    carveList (xs ++ [u]) off =
      (u ++ [0], off + (joinNullTerm xs).length) :: carveList xs off := by
  induction xs generalizing off with
  | nil => simp [carveList, joinNullTerm]
  | cons t l ih =>
    rw [List.cons_append]
    show carveList (l ++ [u]) (off + t.length + 1) ++ [(t ++ [0], off)] = _
    rw [ih (off + t.length + 1)]
    rw [joinNullTerm_cons_length]
    show ((u ++ [0], off + t.length + 1 + (joinNullTerm l).length) :: carveList l (off + t.length + 1)) ++ [(t ++ [0], off)] = _
    rw [List.cons_append]
    have harith : off + t.length + 1 + (joinNullTerm l).length =
        off + (t.length + 1 + (joinNullTerm l).length) := by omega
    rw [harith]
    rfl

/-- The carved data, in carving order, is the reversed list of re-terminated
strings. -/
theorem carveList_map (ss : List (List Nat)) (off : Nat) :
    (carveList ss off).map (fun p => PyVal.bytes p.1) =
      (ss.map (fun t => PyVal.bytes (t ++ [0]))).reverse := by
  induction ss generalizing off with
  | nil => rfl
  | cons t l ih =>
    show ((carveList l (off + t.length + 1)) ++ [(t ++ [0], off)]).map _ = _
    rw [List.map_append, ih (off + t.length + 1)]
    simp

/-- `headI` of an append with a non-empty prefix. -/
theorem headI_append_of_ne_nil (xs ys : List (List Nat)) (h : xs ≠ []) :
    (xs ++ ys).headI = xs.headI := by
  cases xs with
  | nil => exact absurd rfl h
  | cons a l => rfl

/-- The inner splitting loop on a single-section buffer of null-terminated
strings (all of length at least two, the first of length at least three)
carves exactly the strings, right to left, when `string_end` sits on the
final string's terminator. -/
theorem innerLoop_carves (ss1 : List (List Nat)) :
    ∀ (u rest data : List Nat) (sendv fuel : Nat),
      (∀ t ∈ ss1 ++ [u], 0 ∉ t ∧ 2 ≤ t.length) →
      3 ≤ ((ss1 ++ [u]).headI).length →
      data = joinNullTerm ss1 ++ (u ++ 0 :: rest) →
      sendv = (joinNullTerm ss1).length + u.length →
      sendv + 1 ≤ fuel →
      innerLoop data 0 fuel sendv = carveList (ss1 ++ [u]) 0 := by
  induction ss1 using List.reverseRecOn with
  | nil =>
    intro u rest data sendv fuel hss hhead hdata hsend hfuel
    obtain ⟨hunf, hulen⟩ := hss u (by simp)
    have hune : u ≠ [] := by
      intro hnil
      rw [hnil] at hulen
      simp at hulen
    simp only [joinNullTerm, List.foldr_nil, List.nil_append, List.length_nil,
      Nat.zero_add] at hdata hsend
    cases fuel with
    | zero => omega
    | succ f =>
      rw [innerLoop_succ]
      have htake : data.take sendv = u := by
        rw [hdata, hsend]
        exact List.take_left u (0 :: rest)
      have hrf : rfindNull data 0 sendv = none := by
        simp [rfindNull, htake, lastNullIdx_of_nullfree u hunf]
      rw [computeStringStart_none data 0 sendv hrf]
      simp only [List.drop_zero, htake]
      rw [if_neg hune]
      simp [carveList]
  | append_singleton ss2 v ih =>
    intro u rest data sendv fuel hss hhead hdata hsend hfuel
    obtain ⟨hunf, hulen⟩ := hss u (by simp)
    obtain ⟨hvnf, hvlen⟩ := hss v (by simp)
    have hune : u ≠ [] := by
      intro hnil
      rw [hnil] at hulen
      simp at hulen
    have hJ1 : joinNullTerm (ss2 ++ [v]) = joinNullTerm ss2 ++ (v ++ [0]) := by
      rw [joinNullTerm_append]
      rfl
    have hlenJ1 : (joinNullTerm (ss2 ++ [v])).length =
        (joinNullTerm ss2).length + v.length + 1 := by
      rw [hJ1]
      simp
      omega
    rw [hlenJ1] at hsend
    have hr3 : 3 ≤ (joinNullTerm ss2).length + v.length := by
      cases hss2 : ss2 with
      | nil =>
        rw [hss2] at hhead
        simp at hhead
        simp [joinNullTerm]
        omega
      | cons t l =>
        have ht := hss t (by rw [hss2]; simp)
        rw [joinNullTerm_cons_length]
        have := ht.2
        omega
    have hdata2 : data = (joinNullTerm ss2 ++ v) ++ 0 :: (u ++ 0 :: rest) := by
      rw [hdata, hJ1]
      simp [List.append_assoc]
    cases fuel with
    | zero => omega
    | succ f =>
      rw [innerLoop_succ]
      have hPlen : (joinNullTerm (ss2 ++ [v]) ++ u).length = sendv := by
        rw [List.length_append, hlenJ1, hsend]
      have htake : data.take sendv = joinNullTerm (ss2 ++ [v]) ++ u := by
        rw [hdata, ← List.append_assoc, ← hPlen, List.take_left]
      have hlast : lastNullIdx (joinNullTerm (ss2 ++ [v]) ++ u) =
          some ((joinNullTerm ss2).length + v.length) := by
        rw [lastNullIdx_append_of_none _ u (lastNullIdx_of_nullfree u hunf)]
        rw [hJ1, show joinNullTerm ss2 ++ (v ++ [0]) = (joinNullTerm ss2 ++ v) ++ [0] from by
          rw [List.append_assoc]]
        rw [lastNullIdx_append_null]
        simp
      have hrf : rfindNull data 0 sendv = some ((joinNullTerm ss2).length + v.length) := by
        simp [rfindNull, htake, hlast]
      have hgd0 : data.getD ((joinNullTerm ss2).length + v.length) 1 = 0 := by
        rw [hdata2, show (joinNullTerm ss2).length + v.length =
          (joinNullTerm ss2 ++ v).length from by simp]
        exact getD_append_length _ 0 _
      have hgdnz : data.getD ((joinNullTerm ss2).length + v.length - 2) 1 ≠ 0 := by
        have hidx : (joinNullTerm ss2).length + v.length - 2 <
            (joinNullTerm ss2 ++ v).length := by
          simp
          omega
        rw [hdata2, List.getD_append _ _ 1 _ hidx]
        rw [List.getD_append_right (joinNullTerm ss2) v 1 _ (by omega)]
        rw [show (joinNullTerm ss2).length + v.length - 2 - (joinNullTerm ss2).length =
          v.length - 2 from by omega]
        exact getD_ne_zero_of_nullfree v (v.length - 2) hvnf
      rw [computeStringStart_of_null data sendv _ hrf hgd0 hr3 hgdnz]
      have hdrop : (data.take sendv).drop ((joinNullTerm ss2).length + v.length + 1) = u := by
        rw [htake, show (joinNullTerm ss2).length + v.length + 1 =
          (joinNullTerm (ss2 ++ [v])).length from by rw [hlenJ1]]
        exact List.drop_left _ u
      rw [hdrop, if_neg hune,
        if_neg (by omega : ¬((joinNullTerm ss2).length + v.length + 1 = 0))]
      rw [show (joinNullTerm ss2).length + v.length + 1 - 1 =
        (joinNullTerm ss2).length + v.length from by omega]
      have hrec : innerLoop data 0 f ((joinNullTerm ss2).length + v.length) =
          carveList (ss2 ++ [v]) 0 := by
        refine ih v (u ++ 0 :: rest) data ((joinNullTerm ss2).length + v.length) f ?_ ?_ ?_ rfl
          (by omega)
        · intro t ht
          exact hss t (List.mem_append_left [u] ht)
        · rw [headI_append_of_ne_nil (ss2 ++ [v]) [u] (by simp)] at hhead
          exact hhead
        · rw [hdata2]
          simp [List.append_assoc]
      rw [hrec, carveList_append (ss2 ++ [v]) u 0]
      simp [hlenJ1]

/-- `split_decoded_string` on a single-section buffer of null-terminated
single-byte strings carves exactly the strings. -/
theorem splitCore_join (ss1 : List (List Nat)) (u : List Nat)
    (hss : ∀ t ∈ ss1 ++ [u], 0 ∉ t ∧ 2 ≤ t.length)
    (hhead : 3 ≤ ((ss1 ++ [u]).headI).length) :
    splitCore (joinNullTerm (ss1 ++ [u])) (joinNullTerm (ss1 ++ [u])).length =
      carveList (ss1 ++ [u]) 0 := by
  obtain ⟨hunf, hulen⟩ := hss u (by simp)
  have hfd : findDoubleNull (joinNullTerm (ss1 ++ [u])) = none := by
    refine findDoubleNull_join (ss1 ++ [u]) ?_
    intro t ht
    obtain ⟨hnf, hlen⟩ := hss t ht
    refine ⟨?_, hnf⟩
    intro hnil
    rw [hnil] at hlen
    simp at hlen
  have hJ : joinNullTerm (ss1 ++ [u]) = (joinNullTerm ss1 ++ u) ++ [0] := by
    rw [joinNullTerm_append, joinNullTerm_singleton, List.append_assoc]
  have hsize : (joinNullTerm (ss1 ++ [u])).length = (joinNullTerm ss1 ++ u).length + 1 := by
    rw [hJ]
    simp
    omega
  have h1 : splitCore (joinNullTerm (ss1 ++ [u])) (joinNullTerm (ss1 ++ [u])).length =
      outerLoop (joinNullTerm (ss1 ++ [u])) (joinNullTerm (ss1 ++ [u])).length
        ((joinNullTerm (ss1 ++ [u])).length + 2) 0 (joinNullTerm (ss1 ++ [u])).length := by
    simp [splitCore, hfd]
  have h2 : outerLoop (joinNullTerm (ss1 ++ [u])) (joinNullTerm (ss1 ++ [u])).length
      ((joinNullTerm (ss1 ++ [u])).length + 2) 0 (joinNullTerm (ss1 ++ [u])).length =
      innerLoop (joinNullTerm (ss1 ++ [u])) 0 ((joinNullTerm (ss1 ++ [u])).length + 1)
        (joinNullTerm (ss1 ++ [u])).length := by
    rw [show (joinNullTerm (ss1 ++ [u])).length + 2 =
      ((joinNullTerm (ss1 ++ [u])).length + 1) + 1 from rfl]
    simp only [outerLoop]
    simp
  have hr3 : 3 ≤ (joinNullTerm ss1 ++ u).length := by
    rw [List.length_append]
    cases hss1 : ss1 with
    | nil =>
      rw [hss1] at hhead
      simp at hhead
      simp [joinNullTerm]
      omega
    | cons t l =>
      have ht := hss t (by rw [hss1]; simp)
      rw [joinNullTerm_cons_length]
      have := ht.2
      omega
  have hrf : rfindNull (joinNullTerm (ss1 ++ [u])) 0 (joinNullTerm (ss1 ++ [u])).length =
      some (joinNullTerm ss1 ++ u).length := by
    simp only [rfindNull, List.take_length, List.drop_zero]
    rw [hJ, lastNullIdx_append_null]
    simp
  have hgd0 : (joinNullTerm (ss1 ++ [u])).getD (joinNullTerm ss1 ++ u).length 1 = 0 := by
    rw [hJ, show ([0] : List Nat) = 0 :: [] from rfl]
    exact getD_append_length _ 0 _
  have hgdnz : (joinNullTerm (ss1 ++ [u])).getD ((joinNullTerm ss1 ++ u).length - 2) 1 ≠ 0 := by
    have hidx : (joinNullTerm ss1 ++ u).length - 2 < (joinNullTerm ss1 ++ u).length := by
      omega
    rw [hJ, List.getD_append _ _ 1 _ hidx]
    rw [List.getD_append_right (joinNullTerm ss1) u 1 _
      (by rw [List.length_append] at hidx ⊢; omega)]
    refine getD_ne_zero_of_nullfree u _ hunf
  have hst : computeStringStart (joinNullTerm (ss1 ++ [u])) 0
      (joinNullTerm (ss1 ++ [u])).length = (joinNullTerm (ss1 ++ [u])).length := by
    rw [computeStringStart_of_null _ _ _ hrf hgd0 hr3 hgdnz]
    omega
  have h3 : innerLoop (joinNullTerm (ss1 ++ [u])) 0 ((joinNullTerm (ss1 ++ [u])).length + 1)
      (joinNullTerm (ss1 ++ [u])).length =
      innerLoop (joinNullTerm (ss1 ++ [u])) 0 (joinNullTerm (ss1 ++ [u])).length
        ((joinNullTerm (ss1 ++ [u])).length - 1) := by
    rw [innerLoop_succ, hst]
    have hdrop : ((joinNullTerm (ss1 ++ [u])).take (joinNullTerm (ss1 ++ [u])).length).drop
        (joinNullTerm (ss1 ++ [u])).length = [] := by
      rw [List.take_length]
      exact List.drop_length _
    rw [hdrop, if_pos rfl, if_neg (by omega : ¬((joinNullTerm (ss1 ++ [u])).length = 0))]
    rfl
  rw [h1, h2, h3]
  refine innerLoop_carves ss1 u [] (joinNullTerm (ss1 ++ [u]))
    ((joinNullTerm (ss1 ++ [u])).length - 1) (joinNullTerm (ss1 ++ [u])).length hss hhead ?_ ?_
    (by omega)
  · rw [hJ]
    simp [List.append_assoc]
  · rw [hsize, List.length_append]
    omega

/-! ## Amended and confirmed claims -/

/-- C2 (amended): on the spec's mixed-width example buffer the splitter
returns exactly two entities — the first section as the single string `AB`
and the section `C⟍0D` merged into one string — each re-terminated with a
single null byte, each with `offset` equal to its start position in the
original buffer (0 and 4), sorted by ascending start address. -/
theorem c2_split_amended : split_decoded_string c2ex = [c2res1, c2res2] := by
  decide

/-- C5 (amended): with zero Pattern Matcher matches, the xref-driven mode
reports the fatal pattern-match failure and returns no output, while the
inline mode does not treat this as fatal: the run completes normally and
returns an empty string list. -/
theorem c5_zero_matches_amended (ctx : IdaCtx) (dec : Codec) (tracer : Tracer)
    (decode : EncodedString → PyVal) (fn : Option String) :
    string_decoder_main ctx dec tracer decode [] true true fn false =
        .ok { result := none, fatalPatternReport := true } ∧
      string_decoder_main ctx dec tracer decode [] true true fn true =
        .ok { result := some [], fatalPatternReport := false } :=
  ⟨rfl, rfl⟩

/-- The mutated input list of `decode_strings` in closed form. -/
theorem decode_strings_post (lst : List EncodedString) (decode : EncodedString → PyVal) :
    (decode_strings lst decode).post =
      lst.map fun e =>
        if e.encoded_data = INVALID then e else { e with decoded_data := decode e } := by
  induction lst with
  | nil => rfl
  | cons e rest ih =>
    by_cases h : e.encoded_data = INVALID
    · simp [decode_strings, h, ih]
    · by_cases ht : (decode e).truthy <;> simp [decode_strings, h, ht, ih]

/-- The returned list of `decode_strings` in closed form. -/
theorem decode_strings_decoded (lst : List EncodedString) (decode : EncodedString → PyVal) :
    (decode_strings lst decode).decoded =
      (lst.filter fun e =>
          if e.encoded_data = INVALID then false else (decode e).truthy).map
        fun e => { e with decoded_data := decode e } := by
  induction lst with
  | nil => rfl
  | cons e rest ih =>
    by_cases h : e.encoded_data = INVALID
    · simp [decode_strings, h, ih]
    · by_cases ht : (decode e).truthy <;> simp [decode_strings, h, ht, ih]

/-- The debug log of `decode_strings` in closed form. -/
theorem decode_strings_log (lst : List EncodedString) (decode : EncodedString → PyVal) :
    (decode_strings lst decode).log =
      lst.filterMap fun e =>
        if e.encoded_data = INVALID then some (DecodeLog.unresolved e.string_location)
        else if (decode e).truthy then none
        else some DecodeLog.decodeFailed := by
  induction lst with
  | nil => rfl
  | cons e rest ih =>
    by_cases h : e.encoded_data = INVALID
    · simp [decode_strings, h, ih]
    · by_cases ht : (decode e).truthy <;> simp [decode_strings, h, ht, ih]

/-- C6 (confirmed): `decode_strings` leaves entities with unresolved
`encoded_bytes` untouched and logs them, sets `decoded_data` to the decode
function's result on every other entity, drops (with a log record, without
error) exactly the entities whose decode result is falsy, and returns exactly
the entities whose new decoded content is truthy (non-empty). -/
theorem c6_decode_strings (lst : List EncodedString) (decode : EncodedString → PyVal) :
    (decode_strings lst decode).post =
        lst.map (fun e =>
          if e.encoded_data = INVALID then e else { e with decoded_data := decode e }) ∧
      (decode_strings lst decode).decoded =
        (lst.filter fun e =>
            if e.encoded_data = INVALID then false else (decode e).truthy).map
          (fun e => { e with decoded_data := decode e }) ∧
      (∀ e ∈ (decode_strings lst decode).decoded, e.decoded_data.truthy) ∧
      (decode_strings lst decode).log =
        lst.filterMap fun e =>
          if e.encoded_data = INVALID then some (DecodeLog.unresolved e.string_location)
          else if (decode e).truthy then none
          else some DecodeLog.decodeFailed := by
  refine ⟨decode_strings_post lst decode, decode_strings_decoded lst decode, ?_,
    decode_strings_log lst decode⟩
  intro e he
  rw [decode_strings_decoded] at he
  obtain ⟨x, hx, rfl⟩ := List.mem_map.mp he
  have hx2 := List.of_mem_filter hx
  by_cases h : x.encoded_data = INVALID
  · simp [h] at hx2
  · simpa [h] using hx2

/-- C7 (amended): the constructor attempts population exactly when a size is
supplied — `encoded_data` then holds the read bytes when the Binary Context
read succeeds and stays `INVALID` when it fails — and `get_bytes` raises the
size-unknown `ValueError` exactly when `size` is `INVALID`; a size of
`UNUSED` yields empty bytes without raising. -/
theorem c7_encoded_bytes_amended (mem : Mem) (loc ref sz off key : PyVal) :
    (∃ s, EncodedString.init mem loc ref sz off key = .ok s ∧
        ((sz = INVALID ∨ sz = PyVal.unused) → s.encoded_data = INVALID) ∧
        (¬(sz = INVALID ∨ sz = PyVal.unused) →
          s.encoded_data =
            match (if sz.truthy then mem loc.toInt sz.toInt else some []) with
            | some b => PyVal.bytes b
            | none => INVALID)) ∧
      ∀ t : EncodedString, t.get_bytes mem = .error PyErr.valueError ↔ t.size = INVALID := by
  constructor
  · by_cases h : sz = INVALID ∨ sz = PyVal.unused
    · refine ⟨⟨loc, ref, sz, off, key, INVALID, INVALID, none⟩,
        ?_, fun _ => rfl, fun hc => absurd h hc⟩
      have hcond : ¬(sz ≠ INVALID ∧ sz ≠ PyVal.unused) := by tauto
      simp [EncodedString.init, hcond]
    · push_neg at h
      refine ⟨⟨loc, ref, sz, off, key,
        (match (if sz.truthy then mem loc.toInt sz.toInt else some []) with
          | some b => PyVal.bytes b
          | none => INVALID), INVALID, none⟩,
        ?_, fun hc => absurd hc (by tauto), fun _ => rfl⟩
      simp only [EncodedString.init, EncodedString.get_bytes, if_pos h, if_neg h.1]
      cases hm : (if PyVal.truthy sz then mem loc.toInt sz.toInt else some []) with
      | some b => simp [Except.map, hm]
      | none => simp [Except.map, hm]
  · intro t
    constructor
    · intro he
      by_contra hs
      simp only [EncodedString.get_bytes, if_neg hs] at he
      cases hm : (if PyVal.truthy t.size then mem t.string_location.toInt t.size.toInt
          else some []) with
      | some b => rw [hm] at he; exact Except.noConfusion he
      | none => rw [hm] at he; exact Except.noConfusion he
    · intro hs
      simp [EncodedString.get_bytes, hs]

/-- C8 (amended): the locator's `xrefs_to` list is exactly the
cross-references to the function start whose source's function name differs
from the function's own name — so every reference originating inside the
located function (which carries its name) is excluded — but the list is not
deduplicated. -/
theorem c8_callers_amended (ctx : IdaCtx) (ea : Int) (ident : Option String) (c : Bool)
    (sf : SuperFuncT) (h : SuperFunc_t_init ctx ea ident c = .ok sf) :
    sf.xrefs_to =
        (ctx.xrefs sf.startEA).filter (fun frm => ctx.get_func_name frm ≠ sf.name) ∧
      ∀ frm, ctx.get_func_name frm = sf.name → frm ∉ sf.xrefs_to := by
  have hfields : ∃ b : Int × Int,
      sf.startEA = b.1 ∧ sf.name = ctx.get_func_name b.1 ∧
        sf.xrefs_to =
          (ctx.xrefs b.1).filter fun frm => ctx.get_func_name frm ≠ ctx.get_func_name b.1 := by
    simp only [SuperFunc_t_init] at h
    cases hgf : ctx.get_func ea with
    | some b =>
      rw [hgf] at h
      simp only [Except.map] at h
      cases h
      exact ⟨b, rfl, rfl, rfl⟩
    | none =>
      rw [hgf] at h
      cases hc : c with
      | true =>
        rw [hc] at h
        simp only [if_true] at h
        cases hcr : ctx.create_function_precise ea with
        | true =>
          rw [hcr] at h
          simp only [if_true] at h
          cases hgf2 : ctx.get_func_after_create ea with
          | some b =>
            rw [hgf2] at h
            simp only [Except.map] at h
            cases h
            exact ⟨b, rfl, rfl, rfl⟩
          | none => rw [hgf2] at h; exact Except.noConfusion h
        | false => rw [hcr] at h; simp [Except.map] at h
      | false => rw [hc] at h; simp [Except.map] at h
  obtain ⟨b, hs, hn, hx⟩ := hfields
  constructor
  · rw [hx, hs, hn]
  · intro frm hfrm hmem
    rw [hx] at hmem
    have := List.of_mem_filter hmem
    rw [← hn] at this
    simp only [hfrm] at this
    simp at this

/-- C3 (amended): repeated detector calls on identical decoded bytes record
the same codec each time, and full detection itself is deterministic; but
the second call, which tries the recorded code page first, returns that code
page's decode of the full buffer without stripping trailing nulls — so the
texts agree exactly when the recorded codec fails on the full buffer (full
detection is re-run) or its full decode equals its null-stripped form. -/
theorem c3_detector_amended (dec : Codec) (data : List Nat) (s : EncodedString)
    (hdata : s.decoded_data = PyVal.bytes data) (hcp : s.code_page = none) :
    ((s.decode_unknown_charset dec).2.decode_unknown_charset dec).2.code_page =
        (s.decode_unknown_charset dec).2.code_page ∧
      (∀ cp, (s.decode_unknown_charset dec).2.code_page = some cp →
        (dec cp data = none →
          (s.decode_unknown_charset dec).2.decode_unknown_charset dec =
            s.decode_unknown_charset dec) ∧
        ∀ out, dec cp data = some out →
          ((s.decode_unknown_charset dec).2.decode_unknown_charset dec).1 = out ∧
            (s.decode_unknown_charset dec).1 = rstripNull out) ∧
      ((s.decode_unknown_charset dec).2.code_page = none →
        (s.decode_unknown_charset dec).2.decode_unknown_charset dec =
          s.decode_unknown_charset dec) := by
  have hr1 := decode_unknown_charset_detect dec s data hdata hcp
  rcases hDd : detectLoop dec data CODE_PAGES (data.length, none, none) with ⟨bs, bcp, bout⟩
  rw [hDd] at hr1
  cases bout with
  | none =>
    have hr1x : s.decode_unknown_charset dec = ([], s) := hr1
    refine ⟨?_, ?_, ?_⟩ <;> simp [hr1x, hcp]
  | some out =>
    by_cases hout : out = []
    · subst hout
      have hr1x : s.decode_unknown_charset dec = ([], s) := by rw [hr1]; simp
      refine ⟨?_, ?_, ?_⟩ <;> simp [hr1x, hcp]
    · have hr1x : s.decode_unknown_charset dec = (out, { s with code_page := bcp }) := by
        rw [hr1]; exact if_pos hout
      cases bcp with
      | none =>
        rw [set_code_page_self s none hcp] at hr1x
        refine ⟨?_, ?_, ?_⟩ <;> simp [hr1x, hcp]
      | some cpw =>
        obtain ⟨hmem, o, htry, ho⟩ :=
          detectLoop_winner dec data CODE_PAGES (data.length, none, none)
            (fun c hc => hc) (fun cp hx => Option.noConfusion hx) cpw (by rw [hDd])
        rw [hDd] at ho
        obtain rfl : out = o := Option.some.inj ho
        have hne := code_pages_nonempty cpw hmem
        have hdd2 : ({ s with code_page := some cpw } : EncodedString).decoded_data =
            PyVal.bytes data := hdata
        have hcp2 : ({ s with code_page := some cpw } : EncodedString).code_page =
            some cpw := rfl
        refine ⟨?_, ?_, ?_⟩
        · cases hdec2 : dec cpw data with
          | some out2 =>
            have hr2 := decode_unknown_charset_recorded_ok dec
              { s with code_page := some cpw } data cpw out2 hdd2 hcp2 hne hdec2
            simp [hr1x, hr2]
          | none =>
            have hr2 := decode_unknown_charset_recorded_fail dec
              { s with code_page := some cpw } data cpw hdd2 hcp2 hne hdec2
            rw [hDd] at hr2
            have hr2x : EncodedString.decode_unknown_charset dec
                { s with code_page := some cpw } = (out, { s with code_page := some cpw }) := by
              rw [hr2]; exact if_pos hout
            simp [hr1x, hr2x]
        · intro cp hcpeq
          rw [hr1x] at hcpeq
          obtain rfl : cpw = cp := by simpa using hcpeq
          constructor
          · intro hdec2
            have hr2 := decode_unknown_charset_recorded_fail dec
              { s with code_page := some cpw } data cpw hdd2 hcp2 hne hdec2
            rw [hDd] at hr2
            have hr2x : EncodedString.decode_unknown_charset dec
                { s with code_page := some cpw } = (out, { s with code_page := some cpw }) := by
              rw [hr2]; exact if_pos hout
            simp [hr1x, hr2x]
          · intro out2 hdec2
            have hr2 := decode_unknown_charset_recorded_ok dec
              { s with code_page := some cpw } data cpw out2 hdd2 hcp2 hne hdec2
            have hrs : rstripNull out2 = out := by
              unfold tryCodePage at htry
              rw [hdec2] at htry
              exact Option.some.inj htry
            constructor
            · simp [hr1x, hr2]
            · simp [hr1x, ← hrs]
        · intro hnone
          rw [hr1x] at hnone
          simp at hnone

/-- C3 amended, instantiated: on the null-free buffer "AB" with the concrete
codec model, the two calls agree on both the recorded codec and the text. -/
theorem c3_detector_amended_witness :
    ((c3ws.decode_unknown_charset pyDecode).2.decode_unknown_charset pyDecode).2.code_page =
        (c3ws.decode_unknown_charset pyDecode).2.code_page ∧
      (∀ cp, (c3ws.decode_unknown_charset pyDecode).2.code_page = some cp →
        (pyDecode cp [65, 66] = none →
          (c3ws.decode_unknown_charset pyDecode).2.decode_unknown_charset pyDecode =
            c3ws.decode_unknown_charset pyDecode) ∧
        ∀ out, pyDecode cp [65, 66] = some out →
          ((c3ws.decode_unknown_charset pyDecode).2.decode_unknown_charset pyDecode).1 =
              out ∧
            (c3ws.decode_unknown_charset pyDecode).1 = rstripNull out) ∧
      ((c3ws.decode_unknown_charset pyDecode).2.code_page = none →
        (c3ws.decode_unknown_charset pyDecode).2.decode_unknown_charset pyDecode =
          c3ws.decode_unknown_charset pyDecode) :=
  c3_detector_amended pyDecode [65, 66] c3ws rfl rfl

/-- C4 (amended): whenever `decode_unknown_charset` records a codec on an
entity that had none, that codec successfully decodes the entity's
`decoded_data` after removing zero or more trailing null bytes (zero when
the winning decode used the full buffer, more when the wide-codec trimming
retry produced the winner). -/
theorem c4_codec_amended (dec : Codec) (data : List Nat) (s : EncodedString) (cp : String)
    (hdata : s.decoded_data = PyVal.bytes data) (hcp : s.code_page = none)
    (hres : (s.decode_unknown_charset dec).2.code_page = some cp) :
    ∃ d1 k out, data = d1 ++ List.replicate k 0 ∧ dec cp d1 = some out := by
  have hr1 := decode_unknown_charset_detect dec s data hdata hcp
  rcases hDd : detectLoop dec data CODE_PAGES (data.length, none, none) with ⟨bs, bcp, bout⟩
  rw [hDd] at hr1
  cases bout with
  | none =>
    have hr1x : s.decode_unknown_charset dec = ([], s) := hr1
    rw [hr1x] at hres
    simp [hcp] at hres
  | some out =>
    by_cases hout : out = []
    · subst hout
      have hr1x : s.decode_unknown_charset dec = ([], s) := by rw [hr1]; simp
      rw [hr1x] at hres
      simp [hcp] at hres
    · have hr1x : s.decode_unknown_charset dec = (out, { s with code_page := bcp }) := by
        rw [hr1]; exact if_pos hout
      rw [hr1x] at hres
      have hbcp : bcp = some cp := by simpa using hres
      subst hbcp
      obtain ⟨hmem, o, htry, ho⟩ :=
        detectLoop_winner dec data CODE_PAGES (data.length, none, none)
          (fun c hc => hc) (fun cp0 hx => Option.noConfusion hx) cp (by rw [hDd])
      rcases tryCodePage_cases dec data cp o htry with ⟨out0, hdec0, _⟩ | ⟨_, htrim⟩
      · exact ⟨data, 0, out0, by simp, hdec0⟩
      · obtain ⟨d1, k, out0, hd, _, hdec1, _⟩ :=
          utfTrimLoop_some dec cp (data.length + 1) data o htrim
        exact ⟨d1, k, out0, hd, hdec1⟩

/-- C4 amended, instantiated: `utf-16-le` was recorded on the misaligned
buffer, and it decodes that buffer after trailing-null removal. -/
theorem c4_codec_amended_witness :
    ∃ d1 k out, ([65, 0, 66, 0, 0] : List Nat) = d1 ++ List.replicate k 0 ∧
      pyDecode "utf-16-le" d1 = some out :=
  c4_codec_amended pyDecode [65, 0, 66, 0, 0] c4s "utf-16-le" rfl rfl (by decide)

/-- C9 (confirmed): on a non-empty buffer of printable 7-bit ASCII bytes
(decoded by the external ascii codec to the identical code points), full
detection selects the ASCII candidate — it tries ASCII first in the fixed
list, its null-stripped output scores zero raw escapes, and no later
candidate can score strictly lower — records it, and returns the text. -/
theorem c9_ascii_selected (dec : Codec) (data : List Nat) (s : EncodedString)
    (hdata : s.decoded_data = PyVal.bytes data) (hcp : s.code_page = none)
    (hne : data ≠ []) (hprint : ∀ b ∈ data, 32 ≤ b ∧ b ≤ 126)
    (hascii : dec "ascii" data = some data) :
    (s.decode_unknown_charset dec).2.code_page = some "ascii" ∧
      (s.decode_unknown_charset dec).1 = data ∧ CODE_PAGES.head? = some "ascii" := by
  have hr1 := decode_unknown_charset_detect dec s data hdata hcp
  have hnz : ∀ b ∈ data, b ≠ 0 := fun b hb => by have := (hprint b hb).1; omega
  have htry : tryCodePage dec data "ascii" = some data := by
    simp only [tryCodePage, hascii]
    rw [rstripNull_eq_self data hnz]
  have hD : detectLoop dec data CODE_PAGES (data.length, none, none) =
      (0, some "ascii", some data) := by
    have hsplit : CODE_PAGES = "ascii" :: CODE_PAGES.tail := rfl
    rw [hsplit,
      detectLoop_cons_some dec data "ascii" CODE_PAGES.tail data.length none none data htry
        (Or.inl rfl),
      num_raw_bytes_zero data hprint,
      detectLoop_fixed dec data CODE_PAGES.tail "ascii" data hne]
  rw [hD] at hr1
  have hr1x : s.decode_unknown_charset dec =
      (data, { s with code_page := some "ascii" }) := by
    rw [hr1]; exact if_pos hne
  exact ⟨by simp [hr1x], by simp [hr1x], rfl⟩

/-- C9, instantiated: on the printable buffer "Hi" with the concrete codec
model, the detector records ascii and returns the text unchanged. -/
theorem c9_ascii_selected_witness :
    (c9ws.decode_unknown_charset pyDecode).2.code_page = some "ascii" ∧
      (c9ws.decode_unknown_charset pyDecode).1 = [72, 105] ∧
      CODE_PAGES.head? = some "ascii" :=
  c9_ascii_selected pyDecode [72, 105] c9ws rfl rfl (by decide) (by decide) rfl

/-- Shape of the heap splitter's result indices: after sorting, they are
pairwise distinct, all fresh (at or beyond the old store's length), and each
points in the extended store at an object drawn from the new objects. -/
theorem heap_pairs_spec (store objs : List EncodedString)
    (ltf : Nat × EncodedString → Nat × EncodedString → Bool) :
    ((stableSortBy ltf (((List.range objs.length).map (· + store.length)).zip objs)).map
        (fun pr => pr.1)).Nodup ∧
      ∀ i ∈ (stableSortBy ltf
          (((List.range objs.length).map (· + store.length)).zip objs)).map
          (fun pr => pr.1),
        store.length ≤ i ∧ ∃ o, o ∈ objs ∧ (store ++ objs)[i]? = some o := by
  have hlen : ((List.range objs.length).map (· + store.length)).length = objs.length := by
    simp
  have hperm := stableSortBy_perm ltf (((List.range objs.length).map (· + store.length)).zip objs)
  have hmapfst :
      ((((List.range objs.length).map (· + store.length)).zip objs).map fun pr => pr.1) =
        (List.range objs.length).map (· + store.length) :=
    List.map_fst_zip _ _ (le_of_eq hlen)
  have hpermfst := hperm.map fun pr : Nat × EncodedString => pr.1
  constructor
  · refine (hpermfst.nodup_iff).mpr ?_
    rw [hmapfst]
    refine List.Nodup.map ?_ (List.nodup_range _)
    intro a b hab
    have hab2 : a + store.length = b + store.length := hab
    omega
  · intro i hi
    have hi2 := hpermfst.mem_iff.mp hi
    rw [hmapfst] at hi2
    obtain ⟨j, hj, rfl⟩ := List.mem_map.mp hi2
    rw [List.mem_range] at hj
    refine ⟨by omega, ?_⟩
    obtain ⟨pr, hpr, hpr1⟩ := List.mem_map.mp hi
    have hprmem := hperm.mem_iff.mp hpr
    obtain ⟨k, hkget⟩ := List.get_of_mem hprmem
    have hklt : (k : Nat) < objs.length := by
      have := k.isLt
      simpa [hlen] using this
    have hpair : pr = ((k : Nat) + store.length, objs.get ⟨k, hklt⟩) := by
      rw [← hkget]
      simp [List.get_eq_getElem, List.getElem_zip, List.getElem_map, List.getElem_range]
    refine ⟨objs.get ⟨k, hklt⟩, List.get_mem objs (k : Nat) hklt, ?_⟩
    have hidx : j + store.length = (k : Nat) + store.length := by
      rw [← hpr1, hpair]
    rw [hidx, List.getElem?_append_right (by omega)]
    simp [List.getElem?_eq_getElem, hklt]

/-- C10 (confirmed): `split_decoded_string` never mutates its input — every
object present in the store before the call, the input entity included, is
unchanged after it — and every returned entity is a freshly allocated,
pairwise-distinct shallow copy of the input, agreeing with it on every field
the splitter does not overwrite. -/
theorem c10_split_no_mutation (store : List EncodedString) (idx : Nat) (s : EncodedString)
    (h : store[idx]? = some s) :
    (split_decoded_string_heap store idx).1.take store.length = store ∧
      (split_decoded_string_heap store idx).1[idx]? = some s ∧
      (split_decoded_string_heap store idx).2.Nodup ∧
      (∀ i ∈ (split_decoded_string_heap store idx).2, store.length ≤ i) ∧
      ∀ i ∈ (split_decoded_string_heap store idx).2,
        ∃ o, (split_decoded_string_heap store idx).1[i]? = some o ∧
          o.string_location = s.string_location ∧ o.string_reference = s.string_reference ∧
          o.key = s.key ∧ o.encoded_data = s.encoded_data ∧ o.code_page = s.code_page := by
  have hlt : idx < store.length := by
    by_contra hge
    push_neg at hge
    rw [List.getElem?_eq_none hge] at h
    exact Option.noConfusion h
  have hres : split_decoded_string_heap store idx =
      (store ++ splitNewObjs s,
        (stableSortBy (fun a b => a.2.startEA < b.2.startEA)
          (((List.range (splitNewObjs s).length).map (· + store.length)).zip
            (splitNewObjs s))).map (fun pr => pr.1)) := by
    simp only [split_decoded_string_heap, h]
  obtain ⟨hnodup, hmem⟩ :=
    heap_pairs_spec store (splitNewObjs s) (fun a b => a.2.startEA < b.2.startEA)
  rw [hres]
  refine ⟨List.take_left store (splitNewObjs s), ?_, hnodup, fun i hi => (hmem i hi).1, ?_⟩
  · rw [List.getElem?_append, if_pos hlt]
    exact h
  · intro i hi
    obtain ⟨-, o, homem, hoget⟩ := hmem i hi
    obtain ⟨p, -, rfl⟩ := List.mem_map.mp homem
    exact ⟨_, hoget, rfl, rfl, rfl, rfl, rfl⟩

/-- C10, instantiated at the mixed-width example entity in a one-object
store. -/
theorem c10_split_no_mutation_witness :
    (split_decoded_string_heap [c2ex] 0).1.take 1 = [c2ex] ∧
      (split_decoded_string_heap [c2ex] 0).1[0]? = some c2ex ∧
      (split_decoded_string_heap [c2ex] 0).2.Nodup ∧
      (∀ i ∈ (split_decoded_string_heap [c2ex] 0).2, 1 ≤ i) ∧
      ∀ i ∈ (split_decoded_string_heap [c2ex] 0).2,
        ∃ o, (split_decoded_string_heap [c2ex] 0).1[i]? = some o ∧
          o.string_location = c2ex.string_location ∧
          o.string_reference = c2ex.string_reference ∧
          o.key = c2ex.key ∧ o.encoded_data = c2ex.encoded_data ∧
          o.code_page = c2ex.code_page :=
  c10_split_no_mutation [c2ex] 0 c2ex rfl

/-- C8 amended, instantiated: the locator built in `c8ctx` keeps both copies
of the duplicated caller address while excluding every reference that carries
the function's own name. -/
theorem c8_callers_amended_witness :
    c8sfv.xrefs_to =
        (c8ctx.xrefs c8sfv.startEA).filter
          (fun frm => c8ctx.get_func_name frm ≠ c8sfv.name) ∧
      ∀ frm, c8ctx.get_func_name frm = c8sfv.name → frm ∉ c8sfv.xrefs_to :=
  c8_callers_amended c8ctx 5000 (some "decode_rule") true c8sfv rfl

/-- C1 (amended): the round trip holds on buffers of single-byte
null-terminated strings provided every string has length at least two and
the first has length at least three; the splitter then carves exactly the
original strings, each appearing as exactly one result entity re-terminated
with its single null (without the restriction the backward two-byte scan
misparses terminators as wide-character material: on "ab⟍0" it returns the
single entity "ab⟍0⟍0"). -/
theorem c1_roundtrip_amended (ss : List (List Nat)) (s : EncodedString)
    (hss : ∀ t ∈ ss, 0 ∉ t ∧ 2 ≤ t.length)
    (hhead : 3 ≤ ss.headI.length)
    (hne : ss ≠ [])
    (hdec : s.decoded_data = PyVal.bytes (joinNullTerm ss))
    (hsize : s.size = PyVal.int ((joinNullTerm ss).length : Int)) :
    List.Perm ((split_decoded_string s).map fun r => r.decoded_data)
      (ss.map fun t => PyVal.bytes (t ++ [0])) := by
  rcases List.eq_nil_or_concat ss with h | ⟨ss1, u, h⟩
  · exact absurd h hne
  rw [List.concat_eq_append] at h
  subst h
  have htod : s.decoded_data.toData = joinNullTerm (ss1 ++ [u]) := by
    rw [hdec]
    rfl
  have hsz : s.sizeNat = (joinNullTerm (ss1 ++ [u])).length := by
    rw [EncodedString.sizeNat, hsize]
    simp [PyVal.toInt]
  have hobjs : (splitNewObjs s).map (fun r => r.decoded_data) =
      ((ss1 ++ [u]).map (fun t => PyVal.bytes (t ++ [0]))).reverse := by
    rw [splitNewObjs, htod, hsz, splitCore_join ss1 u hss hhead, List.map_map]
    exact carveList_map (ss1 ++ [u]) 0
  have hperm := (stableSortBy_perm (fun a b => a.startEA < b.startEA)
    (splitNewObjs s)).map (fun r => r.decoded_data)
  refine hperm.trans ?_
  rw [hobjs]
  exact List.reverse_perm _

/-- C1 amended, instantiated at the buffer holding "abc" and "de": the two
strings come back as exactly the two entities "abc⟍0" and "de⟍0". -/
theorem c1_roundtrip_witness :
    List.Perm ((split_decoded_string c1wit).map fun r => r.decoded_data)
      (([[97, 98, 99], [100, 101]] : List (List Nat)).map
        fun t => PyVal.bytes (t ++ [0])) :=
  c1_roundtrip_amended [[97, 98, 99], [100, 101]] c1wit (by decide) (by decide)
    (by decide) rfl rfl


end Kordesii
